import Mathlib

/-!
Verification of the workflow-driving core of `astrbot_plugin_easy_comfyui`
(`workflow_parser.py`, `comfyui_client.py`) against its specification.

The Python code manipulates JSON-decoded dynamic values.  We embed those as
the inductive type `Value`; Python dicts are association lists in insertion
order (Python dicts preserve insertion order and have unique keys, so on the
reachable domain first-occurrence lookup/update coincides with dict
semantics).  Dynamic type errors that Python raises (`TypeError`,
`AttributeError`, `KeyError`) are modelled with `Except PyErr`.
-/

set_option maxRecDepth 4000

/-- A Python `TypeError` / `AttributeError` / `KeyError` raised by dynamic code. -/
inductive PyErr where
  | typeError
  | attributeError
  | keyError

/-- JSON-like dynamic Python values (the shapes produced by `json.load`). -/
inductive Value where
  | null
  | bool (b : Bool)
  | int (n : Int)
  | str (s : String)
  | list (xs : List Value)
  | obj (fields : List (String × Value))

/-- A Python dict with `Value` values: an association list in insertion order. -/
abbrev Obj := List (String × Value)

namespace Obj

/-- `d[k]` lookup (first occurrence, which is the only one for a real dict). -/
def lookup (o : Obj) (k : String) : Option Value :=
  match o with
  | [] => none
  | (k', v) :: rest => if k' = k then some v else lookup rest k

/-- `k in d` for a dict. -/
def hasKey (o : Obj) (k : String) : Bool :=
  (lookup o k).isSome

/-- `d.get(k, dflt)`. -/
def getD (o : Obj) (k : String) (dflt : Value) : Value :=
  (lookup o k).getD dflt

/-- `d[k] = v`: replace the (unique) existing binding in place, else append. -/
def set (o : Obj) (k : String) (v : Value) : Obj :=
  match o with
  | [] => [(k, v)]
  | (k', v') :: rest => if k' = k then (k, v) :: rest else (k', v') :: set rest k v

/-- The key list, in insertion order (`for k in d`). -/
def keys (o : Obj) : List String := o.map Prod.fst

end Obj

namespace Value

/-- `isinstance(v, (int, float))`.  Python `bool` is a subclass of `int`, so it
passes the check; floats do not occur in the integer-seeded graphs modelled
here. -/
def isNumber : Value → Bool
  | .int _ => true
  | .bool _ => true
  | _ => false

/-- `v == n` for an integer literal `n` (Python cross-type `==`;
`True == 1` and `False == 0` hold for bools). -/
def eqInt (v : Value) (n : Int) : Bool :=
  match v with
  | .int m => m = n
  | .bool b => (if b then (1 : Int) else 0) = n
  | _ => false

/-- `v == s` for a string literal `s`. -/
def eqStr (v : Value) (s : String) : Bool :=
  match v with
  | .str t => t = s
  | _ => false

/-- `int(v)` for values that already passed the number check. -/
def toIntD : Value → Int
  | .int n => n
  | .bool b => if b then 1 else 0
  | _ => 0

/-- `v[k]` with a string key: dict lookup, `KeyError` when missing,
`TypeError` on any non-dict. -/
def subscriptStr : Value → String → Except PyErr Value
  | .obj fs, k =>
      match Obj.lookup fs k with
      | some v => .ok v
      | none => .error .keyError
  | _, _ => .error .typeError

/-- `v[k] = x` with a string key: dict item assignment, `TypeError` on any
non-dict. -/
def setItemStr : Value → String → Value → Except PyErr Value
  | .obj fs, k, x => .ok (.obj (Obj.set fs k x))
  | _, _, _ => .error .typeError

end Value

/-- `pat` starts the character list. -/
def chStarts : List Char → List Char → Bool
  | [], _ => true
  | _ :: _, [] => false
  | p :: ps, c :: cs => p == c && chStarts ps cs

/-- `pat` occurs inside the character list. -/
def chContains (pat : List Char) : List Char → Bool
  | [] => chStarts pat []
  | c :: rest => chStarts pat (c :: rest) || chContains pat rest

/-- `pat in s` — Python substring containment. -/
def strContains (s pat : String) : Bool := chContains pat.data s.data

/-- `s.lower()` (ASCII case folding, which covers the keys and markers the
code tests; CJK characters have no case). -/
def strToLower (s : String) : String := String.mk (s.data.map Char.toLower)

/-- Python truthiness of an optional string (`None` and `""` are falsy). -/
def optStrTruthy : Option String → Bool
  | some s => s ≠ ""
  | none => false

/-- `repr(v)` as produced by Python for JSON-shaped values. -/
def pyRepr : Value → String
  | .null => "None"
  | .bool b => if b then "True" else "False"
  | .int n => toString n
  | .str s => "\x27" ++ s ++ "\x27"
  | .list xs => "[" ++ String.intercalate ", " (xs.attach.map fun x => pyRepr x.1) ++ "]"
  | .obj fs =>
      "\x7b" ++
        String.intercalate ", "
          (fs.attach.map fun kv => "\x27" ++ kv.1.1 ++ "\x27: " ++ pyRepr kv.1.2) ++
      "\x7d"
decreasing_by
  · have := List.sizeOf_lt_of_mem x.2
    simp only [Value.list.sizeOf_spec]
    omega
  · have h1 := List.sizeOf_lt_of_mem kv.2
    have h2 : sizeOf kv.1.2 < sizeOf kv.1 := by
      obtain ⟨a, b⟩ := kv.1
      simp only [Prod.mk.sizeOf_spec]
      omega
    simp only [Value.obj.sizeOf_spec]
    omega

/-- `str(v)`: like `repr` except that a string is rendered without quotes. -/
def pyStr : Value → String
  | .str s => s
  | v => pyRepr v

/-- `needle in container` on a dynamic container: substring test on a string,
`==`-membership in a list, key membership in a dict, `TypeError` otherwise. -/
def pyContains (needle : String) : Value → Except PyErr Bool
  | .str s => .ok (strContains s needle)
  | .list xs => .ok (xs.any fun v => v.eqStr needle)
  | .obj fs => .ok (Obj.hasKey fs needle)
  | _ => .error .typeError

/-- `v in tys` for a list of strings `tys`: true only when `v` is one of the
strings (Python `==` across types is `False`, raising nothing). -/
def Value.inStrList (v : Value) (tys : List String) : Bool :=
  match v with
  | .str s => tys.contains s
  | _ => false

/-! ## `comfyui_client._enforce_deterministic_workflow` (comfyui_client.py:208-239)

Randomness: `random.randint(1, 2**63 - 1)` is modelled by an ambient stream
`rand : Nat → Int` of the successive values it returns; a counter in the
scan state indexes into the stream. -/

/-- The mutable locals of `_enforce_deterministic_workflow`:
the randint-call counter, `main_seed` and `ksampler_seed`. -/
structure EnforceState where
  ctr : Nat
  mainSeed : Option Int
  ksamplerSeed : Option Int

/-- `[k for k in inputs if "seed" in k.lower()]` — iterating a dynamic
`inputs`.  A dict yields its keys; a string yields single characters (never
containing `"seed"`); a list yields its elements, raising `AttributeError`
on `.lower()` unless every element is a string; anything else is not
iterable (`TypeError`). -/
def seedKeysOf : Value → Except PyErr (List String)
  | .obj fs => .ok ((Obj.keys fs).filter fun k => strContains (strToLower k) "seed")
  | .str _ => .ok []
  | .list xs =>
      if xs.all fun v => match v with | .str _ => true | _ => false then
        .ok ((xs.filterMap fun v => match v with | .str s => some s | _ => none).filter
          fun k => strContains (strToLower k) "seed")
      else .error .attributeError
  | _ => .error .typeError

/-- The body of `for key in seed_keys:` for one `key`, threading the inputs
value and the scan state (comfyui_client.py:224-232). -/
def processSeedKey (rand : Nat → Int) (classType : Value)
    (acc : Value × EnforceState) (key : String) :
    Except PyErr (Value × EnforceState) := do
  let (inputs, st) := acc
  let cur ← inputs.subscriptStr key
  let (inputs, ctr) ←
    if !cur.isNumber || cur.eqInt (-1) then do
      let inputs ← inputs.setItemStr key (.int (rand st.ctr))
      pure (inputs, st.ctr + 1)
    else
      pure (inputs, st.ctr)
  let v ← inputs.subscriptStr key
  let isSampler ← pyContains "Sampler" classType
  if isSampler then
    pure (inputs, ⟨ctr, st.mainSeed, some v.toIntD⟩)
  else if st.mainSeed.isNone then
    pure (inputs, ⟨ctr, some v.toIntD, st.ksamplerSeed⟩)
  else
    pure (inputs, ⟨ctr, st.mainSeed, st.ksamplerSeed⟩)

/-- The `control_after_generate` pinning step (comfyui_client.py:234-236). -/
def pinControlAfterGenerate (inputs : Value) : Except PyErr Value := do
  let present ← pyContains "control_after_generate" inputs
  if present then
    let v ← inputs.subscriptStr "control_after_generate"
    if v.eqStr "randomize" || v.eqStr "increment" || v.eqStr "decrement" then
      inputs.setItemStr "control_after_generate" (.str "fixed")
    else
      pure inputs
  else
    pure inputs

/-- One iteration of `for node_data in workflow_copy.values():`
(comfyui_client.py:216-236): non-dict nodes and nodes without an
`"inputs"` key are skipped. -/
def enforceNode (rand : Nat → Int) (node : Value) (st : EnforceState) :
    Except PyErr (Value × EnforceState) :=
  match node with
  | .obj fields =>
      match Obj.lookup fields "inputs" with
      | none => .ok (node, st)
      | some inputs => do
          let classType := Obj.getD fields "class_type" (.str "")
          let seedKeys ← seedKeysOf inputs
          let (inputs, st) ← seedKeys.foldlM (processSeedKey rand classType) (inputs, st)
          let inputs ← pinControlAfterGenerate inputs
          .ok (.obj (Obj.set fields "inputs" inputs), st)
  | _ => .ok (node, st)

/-- The node loop of `_enforce_deterministic_workflow`, rebuilding the graph
in iteration order. -/
def enforceNodes (rand : Nat → Int) :
    List (String × Value) → EnforceState →
    Except PyErr (List (String × Value) × EnforceState)
  | [], st => .ok ([], st)
  | (k, node) :: rest, st => do
      let (node', st) ← enforceNode rand node st
      let (rest', st) ← enforceNodes rand rest st
      .ok ((k, node') :: rest', st)

/-- Python `a or b` on an optional integer `a` (`None` and `0` are falsy). -/
def pyOrInt (a : Option Int) (b : Int) : Int :=
  match a with
  | some n => if n = 0 then b else n
  | none => b

/-- `_enforce_deterministic_workflow` (comfyui_client.py:208-239): operates
on a deep copy (`json.loads(json.dumps(...))` — the identity on values),
rewrites every non-concrete or sentinel seed-named field to a fresh random
integer, pins `control_after_generate`, and reports
`ksampler_seed or main_seed or 0`. -/
def enforceDeterministicWorkflow (rand : Nat → Int) (workflow : Obj) :
    Except PyErr (Obj × Int) := do
  let (nodes, st) ← enforceNodes rand workflow ⟨0, none, none⟩
  .ok (nodes, pyOrInt st.ksamplerSeed (pyOrInt st.mainSeed 0))

/-! ## `comfyui_client.wait_for_completion` / `execute_workflow`
(comfyui_client.py:126-206)

Network effects are at the component's boundary: the history payload
returned by polling, the submission result and the image-byte fetch are
parameters of the pure classification logic translated below. -/

/-- Python truthiness of a dynamic value. -/
def Value.truthy : Value → Bool
  | .null => false
  | .bool b => b
  | .int n => n ≠ 0
  | .str s => s ≠ ""
  | .list xs => !xs.isEmpty
  | .obj fs => !fs.isEmpty

/-- `v.get(k, dflt)`: dict method, `AttributeError` on any non-dict. -/
def pyGet (v : Value) (k : String) (dflt : Value) : Except PyErr Value :=
  match v with
  | .obj fs => .ok (Obj.getD fs k dflt)
  | _ => .error .attributeError

/-- `v.values()`: dict method, `AttributeError` on any non-dict. -/
def pyValues : Value → Except PyErr (List Value)
  | .obj fs => .ok (fs.map Prod.snd)
  | _ => .error .attributeError

/-- `for x in v`: iterating a dynamic value — a list yields its elements, a
string its one-character strings, a dict its keys; `TypeError` otherwise. -/
def pyIter : Value → Except PyErr (List Value)
  | .list xs => .ok xs
  | .str s => .ok (s.data.map fun c => .str (String.mk [c]))
  | .obj fs => .ok (fs.map fun kv => .str kv.1)
  | _ => .error .typeError

/-- One poll-step body of `wait_for_completion` (comfyui_client.py:143-153):
`none` means the loop keeps polling, otherwise the terminal
`(success, result, message)` triple is produced.  `history` is the value
`get_history` returned (`.null` standing for Python `None`). -/
def pollStep (history : Value) (prompt_id : String) :
    Except PyErr (Option (Bool × Option Value × String)) := do
  if history.truthy then
    let mem ← pyContains prompt_id history
    if mem then do
      let ph ← history.subscriptStr prompt_id
      let hasOutputs ← pyContains "outputs" ph
      if hasOutputs then do
        let hasStatus ← pyContains "status" ph
        if hasStatus then do
          let status ← ph.subscriptStr "status"
          let statusStr ← pyGet status "status_str" .null
          if statusStr.eqStr "error" then
            pure (some (false, none, "执行出错"))
          else
            pure (some (true, some ph, "执行完成"))
        else
          pure (some (true, some ph, "执行完成"))
      else
        pure none
    else
      pure none
  else
    pure none

/-- The `img_data` record built for each image descriptor
(comfyui_client.py:184-188). -/
structure ImgRef where
  filename : Value
  subfolder : Value
  ftype : Value

/-- Inner loop `for image_info in node_output["images"]`
(comfyui_client.py:183-193): an `"output"`-typed image is selected and the
loop breaks; otherwise the first image seen fills a provisional target. -/
def scanImageList (target : Option ImgRef) :
    List Value → Except PyErr (Option ImgRef)
  | [] => .ok target
  | info :: rest => do
      let fn ← pyGet info "filename" .null
      let sf ← pyGet info "subfolder" (.str "")
      let ft ← pyGet info "type" (.str "output")
      if ft.eqStr "output" then
        .ok (some ⟨fn, sf, ft⟩)
      else
        scanImageList (if target.isNone then some ⟨fn, sf, ft⟩ else target) rest

/-- Outer loop over `result["outputs"].values()` (comfyui_client.py:180-195),
breaking once the provisional target is `"output"`-typed. -/
def scanOutputs (target : Option ImgRef) :
    List Value → Except PyErr (Option ImgRef)
  | [] => .ok target
  | nodeOutput :: rest => do
      let hasImages ← pyContains "images" nodeOutput
      if !hasImages then
        scanOutputs target rest
      else do
        let images ← nodeOutput.subscriptStr "images"
        let imageList ← pyIter images
        let target ← scanImageList target imageList
        match target with
        | some img =>
            if img.ftype.eqStr "output" then .ok (some img)
            else scanOutputs (some img) rest
        | none => scanOutputs none rest

/-- The target-image extraction of `execute_workflow`
(comfyui_client.py:178-195): `if result and "outputs" in result:` followed
by the scan of every node's image list. -/
def extractTargetImage (result : Option Value) :
    Except PyErr (Option ImgRef) :=
  match result with
  | some r =>
      if r.truthy then do
        let hasOutputs ← pyContains "outputs" r
        if hasOutputs then do
          let outs ← r.subscriptStr "outputs"
          let outVals ← pyValues outs
          scanOutputs none outVals
        else pure none
      else pure none
  | none => pure none

/-- `execute_workflow` (comfyui_client.py:157-206) with its network calls at
the boundary: `queueRes` is what `queue_prompt` returned, `waitRes` what
`wait_for_completion` resolved to, and `fetch` the byte result of
`get_image` per `(filename, subfolder, folder_type)`.  Empty bytes are
falsy in Python, so an empty fetched body also falls through to the
no-image return. -/
def execute_workflow (queueRes : Option String × Option Int)
    (known_seed : Option Int) (waitRes : Bool × Option Value × String)
    (fetch : Value → Value → Value → Option (List Nat)) :
    Except PyErr (Bool × Option (List Nat) × String × Option Int) := do
  let (prompt_id, detected_seed) := queueRes
  if !(optStrTruthy prompt_id) then
    pure (false, none, "提交工作流失败", none)
  else
    let used_seed := match known_seed with
      | some s => some s
      | none => detected_seed
    let (success, result, status_msg) := waitRes
    if !success then
      pure (false, none, status_msg, used_seed)
    else do
      let target ← extractTargetImage result
      match target with
      | some img =>
          match fetch img.filename img.subfolder img.ftype with
          | some bytes =>
              if bytes.isEmpty then
                pure (false, none, "未找到输出图像", used_seed)
              else
                pure (true, some bytes, "生成成功", used_seed)
          | none => pure (false, none, "未找到输出图像", used_seed)
      | none => pure (false, none, "未找到输出图像", used_seed)

/-! ## `workflow_parser.WorkflowParser` — taxonomies and role mapping
(workflow_parser.py:14-63) -/

def CLIP_TEXT_ENCODE_TYPES : List String :=
  ["CLIPTextEncode", "CLIPTextEncodeSDXL", "AdvancedCLIPTextEncode",
   "CLIPTextEncodeSD3", "BNK_CLIPTextEncodeAdvanced"]

def LATENT_IMAGE_TYPES : List String :=
  ["EmptyLatentImage", "EmptySD3LatentImage", "EmptyLatentImagePresets"]

def SAMPLER_TYPES : List String :=
  ["KSampler", "KSamplerAdvanced", "SamplerCustom", "SamplerCustomAdvanced",
   "KSampler (Efficient)", "KSamplerSelect"]

def LOAD_IMAGE_TYPES : List String :=
  ["LoadImage", "LoadImageMask", "LoadImageFromUrl"]

def OUTPUT_TYPES : List String :=
  ["PreviewImage", "SaveImage", "SaveImageWebsocket"]

def TRT_LOADER_TYPES : List String :=
  ["TensorRT Loader", "TensorRTLoader", "TensorRTLoaderSD3", "TensorRTLoaderFlux"]

def PASSTHROUGH_TYPES : List String :=
  ["Reroute", "RerouteTextForCLIPTextEncodeForSDXL"]

/-- `WorkflowNodeMapping` (workflow_parser.py:14-27). -/
structure WorkflowNodeMapping where
  positive_prompt_node : Option String := none
  negative_prompt_node : Option String := none
  latent_image_node : Option String := none
  sampler_node : Option String := none
  sampler_nodes : List String := []
  load_image_node : Option String := none
  output_node : Option String := none
  positive_prompt_field : String := "text"
  negative_prompt_field : String := "text"
  has_tensorrt : Bool := false

/-! ## `workflow_parser._trace_link_source` (workflow_parser.py:133-160) -/

/-- `isinstance(value, list) and len(value) >= 2` — the test selecting the
link reference a passthrough node forwards. -/
def isLinkish : Value → Bool
  | .list (_ :: _ :: _) => true
  | _ => false

/-- `_trace_link_source`, with the depth bound as structural fuel.  Returns
`ok none` when the reference is not a non-empty list or the depth bound is
exhausted; raises (`AttributeError`) when a visited node value is not a
dict, or when a passthrough node's `inputs` is not a dict. -/
def traceLinkSource (g : Obj) (targetTypes : List String) :
    Nat → Value → Except PyErr (Option String)
  | 0, _ => .ok none
  | _ + 1, .null => .ok none
  | _ + 1, .bool _ => .ok none
  | _ + 1, .int _ => .ok none
  | _ + 1, .str _ => .ok none
  | _ + 1, .obj _ => .ok none
  | _ + 1, .list [] => .ok none
  | depth + 1, .list (x :: _) =>
      let sourceId := pyStr x
      match Obj.lookup g sourceId with
      | none => .ok none
      | some sourceNode =>
          match sourceNode with
          | .obj fields =>
              let sourceClass := Obj.getD fields "class_type" (.str "")
              if sourceClass.inStrList targetTypes then
                .ok (some sourceId)
              else if sourceClass.inStrList PASSTHROUGH_TYPES then
                match Obj.getD fields "inputs" (.obj []) with
                | .obj ifs =>
                    match ifs.find? (fun kv => isLinkish kv.2) with
                    | some kv => traceLinkSource g targetTypes depth kv.2
                    | none => .ok (some sourceId)
                | _ => .error .attributeError
              else
                .ok (some sourceId)
          | _ => .error .attributeError

/-! ## `workflow_parser._classify_clip_nodes` (workflow_parser.py:162-227) -/

/-- `node_id in (mapping.positive_prompt_node, mapping.negative_prompt_node)`. -/
def assignedTo (m : WorkflowNodeMapping) (nodeId : String) : Bool :=
  m.positive_prompt_node = some nodeId || m.negative_prompt_node = some nodeId

/-- The sampler-link phase (workflow_parser.py:178-195) for one polarity:
trace the sampler's reference restricted to the prompt-encode taxonomy, and
fall back to the direct, untraced source id when it is itself a candidate. -/
def classifyFromRef (g : Obj) (clipIds : List String) (ref : Value) :
    Except PyErr (Option String) := do
  match ref with
  | .list (x :: rest) => do
      let traced ← traceLinkSource g CLIP_TEXT_ENCODE_TYPES 10 (.list (x :: rest))
      match traced with
      | some tid =>
          if tid ≠ "" && clipIds.contains tid then
            pure (some tid)
          else if clipIds.contains (pyStr x) then
            pure (some (pyStr x))
          else
            pure none
      | none =>
          if clipIds.contains (pyStr x) then
            pure (some (pyStr x))
          else
            pure none
  | _ => pure none

/-- The title-keyword phase for one candidate (workflow_parser.py:200-207). -/
def classifyByTitle (m : WorkflowNodeMapping) (nodeId : String)
    (nodeData : Value) : Except PyErr WorkflowNodeMapping := do
  if assignedTo m nodeId then
    pure m
  else do
    let meta ← pyGet nodeData "_meta" (.obj [])
    let titleV ← pyGet meta "title" (.str "")
    let title ←
      match titleV with
      | .str s => pure (strToLower s)
      | _ => .error .attributeError
    if !(optStrTruthy m.negative_prompt_node) &&
        (strContains title "negative" || strContains title "负") then
      pure { m with negative_prompt_node := some nodeId }
    else if !(optStrTruthy m.positive_prompt_node) &&
        (strContains title "positive" || strContains title "正") then
      pure { m with positive_prompt_node := some nodeId }
    else
      pure m

def negative_keywords : List String :=
  ["worst quality", "low quality", "bad anatomy", "ugly"]

def positive_keywords : List String :=
  ["masterpiece", "best quality", "beautiful", "detailed"]

/-- The content-keyword phase for one candidate
(workflow_parser.py:212-219). -/
def classifyByText (m : WorkflowNodeMapping) (nodeId : String)
    (nodeData : Value) : Except PyErr WorkflowNodeMapping := do
  if assignedTo m nodeId then
    pure m
  else do
    let inputsV ← pyGet nodeData "inputs" (.obj [])
    let textV ← pyGet inputsV "text" (.str "")
    let text ←
      match textV with
      | .str s => pure (strToLower s)
      | _ => .error .attributeError
    if !(optStrTruthy m.negative_prompt_node) &&
        negative_keywords.any (fun kw => strContains text kw) then
      pure { m with negative_prompt_node := some nodeId }
    else if !(optStrTruthy m.positive_prompt_node) &&
        positive_keywords.any (fun kw => strContains text kw) then
      pure { m with positive_prompt_node := some nodeId }
    else
      pure m

/-- The final positional fallback for one candidate
(workflow_parser.py:221-227). -/
def classifyByOrder (m : WorkflowNodeMapping) (nodeId : String) :
    WorkflowNodeMapping :=
  if assignedTo m nodeId then
    m
  else if !(optStrTruthy m.positive_prompt_node) then
    { m with positive_prompt_node := some nodeId }
  else if !(optStrTruthy m.negative_prompt_node) then
    { m with negative_prompt_node := some nodeId }
  else
    m

/-- `_classify_clip_nodes` (workflow_parser.py:162-227). -/
def classifyClipNodes (clipTextNodes : List (String × Value))
    (m : WorkflowNodeMapping) (g : Obj) : Except PyErr WorkflowNodeMapping := do
  match clipTextNodes with
  | [] => pure m
  | [(nodeId, _)] => pure { m with positive_prompt_node := some nodeId }
  | _ => do
      let clipIds := clipTextNodes.map Prod.fst
      let m ←
        match m.sampler_node with
        | some sid =>
            if sid ≠ "" && Obj.hasKey g sid then do
              let samplerNode := Obj.getD g sid .null
              let samplerInputs ← pyGet samplerNode "inputs" (.obj [])
              let positiveRef ← pyGet samplerInputs "positive" (.list [])
              let negativeRef ← pyGet samplerInputs "negative" (.list [])
              let posAssign ← classifyFromRef g clipIds positiveRef
              let m := match posAssign with
                | some nid => { m with positive_prompt_node := some nid }
                | none => m
              let negAssign ← classifyFromRef g clipIds negativeRef
              let m := match negAssign with
                | some nid => { m with negative_prompt_node := some nid }
                | none => m
              pure m
            else
              pure m
        | none => pure m
      if optStrTruthy m.positive_prompt_node &&
          optStrTruthy m.negative_prompt_node then
        pure m
      else do
        let m ← clipTextNodes.foldlM
          (fun m kv => classifyByTitle m kv.1 kv.2) m
        let m ← clipTextNodes.foldlM
          (fun m kv => classifyByText m kv.1 kv.2) m
        pure (clipTextNodes.foldl (fun m kv => classifyByOrder m kv.1) m)

/-! ## `workflow_parser._analyze_workflow_nodes` (workflow_parser.py:103-131) -/

/-- One iteration of the single classification pass
(workflow_parser.py:108-128), accumulating the mapping and the deferred
prompt-encode candidates. -/
def analyzeNode (acc : WorkflowNodeMapping × List (String × Value))
    (entry : String × Value) : WorkflowNodeMapping × List (String × Value) :=
  let (m, clips) := acc
  let (nodeId, nodeData) := entry
  match nodeData with
  | .obj _ =>
      let classType := match nodeData with
        | .obj fields => Obj.getD fields "class_type" (.str "")
        | _ => .str ""
      let m := if classType.inStrList TRT_LOADER_TYPES then
          { m with has_tensorrt := true }
        else m
      if classType.inStrList CLIP_TEXT_ENCODE_TYPES then
        (m, clips ++ [(nodeId, nodeData)])
      else if classType.inStrList LATENT_IMAGE_TYPES then
        ({ m with latent_image_node := some nodeId }, clips)
      else if classType.inStrList SAMPLER_TYPES then
        ({ m with
            sampler_nodes := m.sampler_nodes ++ [nodeId]
            sampler_node := if optStrTruthy m.sampler_node then m.sampler_node
              else some nodeId }, clips)
      else if classType.inStrList LOAD_IMAGE_TYPES then
        ({ m with load_image_node := some nodeId }, clips)
      else if classType.inStrList OUTPUT_TYPES then
        ({ m with output_node := some nodeId }, clips)
      else
        (m, clips)
  | _ => (m, clips)

/-- `_analyze_workflow_nodes` (workflow_parser.py:103-131): the single pass
followed by clip-polarity classification. -/
def analyzeWorkflowNodes (g : Obj) : Except PyErr WorkflowNodeMapping :=
  let (m, clips) := g.foldl analyzeNode ({}, [])
  classifyClipNodes clips m g

/-! ## `workflow_parser.prepare_workflow` (workflow_parser.py:255-289)

`prepare_workflow` mutates a graph obtained from `copy.deepcopy` of the
stored template.  To make that aliasing behaviour observable, template
graphs live in a small heap of graph objects addressed by `Nat`; a
`WorkflowInfo` holds the address of its template, the deep copy allocates a
fresh address, and every write of the preparation goes to that fresh
address. -/

/-- `WorkflowInfo` (workflow_parser.py:30-38), with `workflow_data` as a
heap address. -/
structure WorkflowInfo where
  name : String
  workflow_data : Nat
  node_mapping : WorkflowNodeMapping
  description : String := ""

/-- The parser's registry (`self.workflows`) plus the heap of graph
objects. -/
structure ParserState where
  workflows : List (Nat × WorkflowInfo)
  heap : List Obj

/-- `self.workflows.get(index)` (workflow_parser.py:238-240). -/
def lookupIdx (ws : List (Nat × WorkflowInfo)) (i : Nat) : Option WorkflowInfo :=
  match ws with
  | [] => none
  | (j, w) :: rest => if j = i then some w else lookupIdx rest i

/-- `workflow[nid]["inputs"][field] = v`: the nested item assignment used by
the preparation steps; on error the graph is returned unchanged (the
assignment is atomic). -/
def setNodeInputField (g : Obj) (nid field : String) (v : Value) :
    Obj × Option PyErr :=
  match Obj.lookup g nid with
  | none => (g, some .keyError)
  | some node =>
      match node.subscriptStr "inputs" with
      | .error e => (g, some e)
      | .ok inputsV =>
          match inputsV.setItemStr field v with
          | .error e => (g, some e)
          | .ok inputs' =>
              match node.setItemStr "inputs" inputs' with
              | .error e => (g, some e)
              | .ok node' => (Obj.set g nid node', none)

/-- The sampler-seed loop (workflow_parser.py:279-283): for every sampler id
present in the graph, create a missing `inputs` dict and write the seed. -/
def setSamplerSeeds (seedVal : Int) : List String → Obj → Obj × Option PyErr
  | [], g => (g, none)
  | sid :: rest, g =>
      if Obj.hasKey g sid then
        let node := Obj.getD g sid .null
        match pyContains "inputs" node with
        | .error e => (g, some e)
        | .ok b =>
            let created : Obj × Option PyErr :=
              if !b then
                match node.setItemStr "inputs" (.obj []) with
                | .error e => (g, some e)
                | .ok node' => (Obj.set g sid node', none)
              else
                (g, none)
            match created with
            | (g', some e) => (g', some e)
            | (g', none) =>
                match setNodeInputField g' sid "seed" (.int seedVal) with
                | (g'', some e) => (g'', some e)
                | (g'', none) => setSamplerSeeds seedVal rest g''
      else
        setSamplerSeeds seedVal rest g

/-- One optional prompt-field write of `prepare_workflow`
(workflow_parser.py:272-276): guarded by truthiness of the role and key
membership. -/
def optFieldStep (g : Obj) (onode : Option String) (fld : String)
    (v : Value) : Obj × Option PyErr :=
  match onode with
  | some p =>
      if p ≠ "" && Obj.hasKey g p then setNodeInputField g p fld v
      else (g, none)
  | none => (g, none)

/-- The optional input-image write (workflow_parser.py:285-287). -/
def imageStep (g : Obj) (img : Option String) (onode : Option String) :
    Obj × Option PyErr :=
  if optStrTruthy img && optStrTruthy onode then
    if Obj.hasKey g (onode.getD "") then
      setNodeInputField g (onode.getD "") "image" (.str (img.getD ""))
    else (g, none)
  else (g, none)

/-- The in-place updates of `prepare_workflow` after the deep copy
(workflow_parser.py:272-287): positive prompt, negative prompt, sampler
seeds, optional input image.  The pair carries the graph state reached
when an update raises. -/
def applyPrepare (m : WorkflowNodeMapping) (pos neg : String)
    (actualSeed : Int) (img : Option String) (g : Obj) : Obj × Option PyErr :=
  match optFieldStep g m.positive_prompt_node m.positive_prompt_field
      (.str pos) with
  | (g₁, some e) => (g₁, some e)
  | (g₁, none) =>
      match optFieldStep g₁ m.negative_prompt_node m.negative_prompt_field
          (.str neg) with
      | (g₂, some e) => (g₂, some e)
      | (g₂, none) =>
          match setSamplerSeeds actualSeed m.sampler_nodes g₂ with
          | (g₃, some e) => (g₃, some e)
          | (g₃, none) => imageStep g₃ img m.load_image_node

/-- `prepare_workflow` (workflow_parser.py:255-289).  `randSeed` is the
value `random.randint(1, 2**63 - 1)` would produce when no caller seed is
given.  Returns the new state and, on success, the heap address of the
prepared graph, the seed actually applied and the negative prompt —
mirroring the `(workflow, actual_seed, negative_prompt)` triple, with the
all-`None` triple for an unknown index. -/
def prepare_workflow (st : ParserState) (workflowIndex : Nat)
    (pos neg : String) (seed : Option Int) (inputImage : Option String)
    (randSeed : Int) :
    ParserState × Except PyErr (Option Nat × Option Int × Option String) :=
  match lookupIdx st.workflows workflowIndex with
  | none => (st, .ok (none, none, none))
  | some info =>
      let template := st.heap.getD info.workflow_data []
      let addr := st.heap.length
      let actual_seed := match seed with
        | some s => s
        | none => randSeed
      match applyPrepare info.node_mapping pos neg actual_seed inputImage
          template with
      | (g, some e) => (⟨st.workflows, st.heap ++ [g]⟩, .error e)
      | (g, none) =>
          (⟨st.workflows, st.heap ++ [g]⟩,
           .ok (some addr, some actual_seed, some neg))

/-! ## Specification-side views of graphs

These definitions are observation functions used to state the claims; the
seed-related ones read the same `"seed" in key.lower()` field selection the
enforcer uses. -/

/-- Whether a field name is seed-named (contains `"seed"`,
case-insensitively). -/
def seedNamed (k : String) : Bool := strContains (strToLower k) "seed"

/-- The seed-named input fields of one node (empty for non-dict nodes,
missing or non-dict `inputs`). -/
def seedFieldsOfNode (node : Value) : List (String × Value) :=
  match node with
  | .obj fields =>
      match Obj.lookup fields "inputs" with
      | some (.obj ifs) => ifs.filter fun kv => seedNamed kv.1
      | _ => []
  | _ => []

/-- The seed-named input fields of every node, byte for byte, in graph
order. -/
def seedFields (g : Obj) : List (String × List (String × Value)) :=
  g.map fun kn => (kn.1, seedFieldsOfNode kn.2)

/-- Every seed-named field of the graph holds a concrete number different
from the sentinel `-1`. -/
def allSeedsConcrete (g : Obj) : Bool :=
  g.all fun kn => (seedFieldsOfNode kn.2).all fun kv =>
    kv.2.isNumber && !kv.2.eqInt (-1)

/-- Some seed-named input field exists somewhere in the graph. -/
def hasSeedField (g : Obj) : Bool :=
  g.any fun kn => !(seedFieldsOfNode kn.2).isEmpty

/-- A node with everything except its seed-named and
`control_after_generate` input fields: the part of a node the enforcer must
not change. -/
def scrubInputs : Value → Value
  | .obj ifs => .obj (ifs.filter fun kv =>
      !seedNamed kv.1 && !(kv.1 == "control_after_generate"))
  | v => v

/-- `scrubInputs` applied under a node's `inputs` binding. -/
def scrubNode (node : Value) : Value :=
  match node with
  | .obj fields =>
      match Obj.lookup fields "inputs" with
      | some iv => .obj (Obj.set fields "inputs" (scrubInputs iv))
      | none => node
  | v => v

/-- The whole graph with seed-named and `control_after_generate` input
fields erased — equal scrubbed graphs have identical remaining data. -/
def scrubGraph (g : Obj) : Obj :=
  g.map fun kn => (kn.1, scrubNode kn.2)

/-- `"Sampler" in class_type` as a total predicate (the cases on which
`pyContains` succeeds; on others the enforcer raises instead). -/
def classIsSampler (v : Value) : Bool :=
  match v with
  | .str s => strContains s "Sampler"
  | .list xs => xs.any fun u => u.eqStr "Sampler"
  | .obj fs => Obj.hasKey fs "Sampler"
  | _ => false

/-- Modelled from the spec (corrected): the `(isSamplerClass, value)` pairs
of a node's seed-named fields in field order. -/
def nodeSeedContrib (node : Value) : List (Bool × Int) :=
  match node with
  | .obj fields =>
      match Obj.lookup fields "inputs" with
      | some (.obj ifs) =>
          let ct := Obj.getD fields "class_type" (.str "")
          (ifs.filter fun kv => seedNamed kv.1).map
            fun kv => (classIsSampler ct, kv.2.toIntD)
      | _ => []
  | _ => []

/-- Modelled from the spec (corrected): fold the reported-seed tracking
state `(firstNonSamplerSeed, lastSamplerSeed)` over one node's seed
fields. -/
def scanContribs (cs : List (Bool × Int)) (st : Option Int × Option Int) :
    Option Int × Option Int :=
  cs.foldl (fun st c =>
    if c.1 then (st.1, some c.2)
    else if st.1.isNone then (some c.2, st.2)
    else st) st

/-- Modelled from the spec (corrected by the code's falsy-zero `or` chain):
the reported seed is the last seed value found on a `"Sampler"`-classed
node if nonzero, else the first seed value found on a non-sampler node if
nonzero, else `0` — read off the enforced graph. -/
def reportedSeedSpec (g : Obj) : Int :=
  let st := g.foldl (fun st kn => scanContribs (nodeSeedContrib kn.2) st)
    ((none : Option Int), (none : Option Int))
  pyOrInt st.2 (pyOrInt st.1 0)

/-- The (unique for a real Python dict) keys of a node's `inputs` dict are
distinct — the well-formedness every `json.load`-produced graph has. -/
def NodeWF (node : Value) : Prop :=
  match node with
  | .obj fields =>
      match Obj.lookup fields "inputs" with
      | some (.obj ifs) => (Obj.keys ifs).Nodup
      | _ => True
  | _ => True

/-- All nodes of the graph are `NodeWF`. -/
def GraphWF (g : Obj) : Prop := ∀ kn ∈ g, NodeWF kn.2

/-- The seed value a node of the graph carries in the literal field
`"seed"` of its `inputs`. -/
def seedOfNode (g : Obj) (nid : String) : Option Value :=
  match Obj.lookup g nid with
  | some (.obj fields) =>
      match Obj.lookup fields "inputs" with
      | some (.obj ifs) => Obj.lookup ifs "seed"
      | _ => none
  | _ => none

/-- The literal `"seed"` entry of an `inputs` value. -/
def inputsSeedVal (v : Value) : Option Value :=
  match v with
  | .obj ifs => Obj.lookup ifs "seed"
  | _ => none

/-- The literal `"seed"` input field of one node value. -/
def nodeSeedVal (node : Value) : Option Value :=
  match node with
  | .obj fields =>
      match Obj.lookup fields "inputs" with
      | some iv => inputsSeedVal iv
      | none => none
  | _ => none

/-- The chain relation of the spec: following the reference, `k` passthrough
nodes are crossed (each forwarding its first two-or-more-element list
input, exactly the link the tracer follows) before reaching a node of the
wanted taxonomy with id `target`. -/
inductive PassChainTo (g : Obj) (tys : List String) :
    Value → Nat → String → Prop where
  | found (x : Value) (rest : List Value) (flds : Obj) :
      Obj.lookup g (pyStr x) = some (.obj flds) →
      (Obj.getD flds "class_type" (.str "")).inStrList tys = true →
      PassChainTo g tys (.list (x :: rest)) 0 (pyStr x)
  | hop (x : Value) (rest : List Value) (flds ifs : Obj)
      (kv : String × Value) (k : Nat) (target : String) :
      Obj.lookup g (pyStr x) = some (.obj flds) →
      (Obj.getD flds "class_type" (.str "")).inStrList tys = false →
      (Obj.getD flds "class_type" (.str "")).inStrList PASSTHROUGH_TYPES = true →
      Obj.getD flds "inputs" (.obj []) = .obj ifs →
      ifs.find? (fun kv => isLinkish kv.2) = some kv →
      PassChainTo g tys kv.2 k target →
      PassChainTo g tys (.list (x :: rest)) (k + 1) target

/-- A reference the code (not the spec) considers malformed: anything that
is not a non-empty list. -/
def notNonemptyList : Value → Prop
  | .list (_ :: _) => False
  | _ => True

/-- Well-typedness sufficient for the classifier never to raise: every node
value is a dict, a present `inputs` is a dict, and on prompt-encode nodes a
present `_meta` is a dict with a string `title` (when present) and a
present `text` is a string. -/
def nodeTyped (v : Value) : Bool :=
  match v with
  | .obj fields =>
      (match Obj.lookup fields "inputs" with
       | some (.obj _) => true
       | some _ => false
       | none => true) &&
      (!(Obj.getD fields "class_type" (.str "")).inStrList CLIP_TEXT_ENCODE_TYPES ||
        ((match Obj.lookup fields "_meta" with
          | some (.obj mfs) =>
              (match Obj.lookup mfs "title" with
               | some (.str _) => true
               | some _ => false
               | none => true)
          | some _ => false
          | none => true) &&
         (match Obj.lookup fields "inputs" with
          | some (.obj ifs) =>
              (match Obj.lookup ifs "text" with
               | some (.str _) => true
               | some _ => false
               | none => true)
          | _ => true)))
  | _ => false

/-- All nodes of the graph pass `nodeTyped`. -/
def graphTyped (g : Obj) : Bool := g.all fun kn => nodeTyped kn.2

/-- A node value the single pass defers as a prompt-encode candidate: a
dict whose `class_type` is in the prompt-encode taxonomy
(workflow_parser.py:117-118). -/
def clipShaped (v : Value) : Bool :=
  match v with
  | .obj fields =>
      (Obj.getD fields "class_type" (.str "")).inStrList CLIP_TEXT_ENCODE_TYPES
  | _ => false

/-- A graph whose node `"1"` starts a chain of exactly ten `Reroute`
passthrough nodes ending at the prompt-encode node `"11"`. -/
def chainGraphTen : Obj :=
  [("1", .obj [("class_type", .str "Reroute"),
               ("inputs", .obj [("x", .list [.str "2", .int 0])])]),
   ("2", .obj [("class_type", .str "Reroute"),
               ("inputs", .obj [("x", .list [.str "3", .int 0])])]),
   ("3", .obj [("class_type", .str "Reroute"),
               ("inputs", .obj [("x", .list [.str "4", .int 0])])]),
   ("4", .obj [("class_type", .str "Reroute"),
               ("inputs", .obj [("x", .list [.str "5", .int 0])])]),
   ("5", .obj [("class_type", .str "Reroute"),
               ("inputs", .obj [("x", .list [.str "6", .int 0])])]),
   ("6", .obj [("class_type", .str "Reroute"),
               ("inputs", .obj [("x", .list [.str "7", .int 0])])]),
   ("7", .obj [("class_type", .str "Reroute"),
               ("inputs", .obj [("x", .list [.str "8", .int 0])])]),
   ("8", .obj [("class_type", .str "Reroute"),
               ("inputs", .obj [("x", .list [.str "9", .int 0])])]),
   ("9", .obj [("class_type", .str "Reroute"),
               ("inputs", .obj [("x", .list [.str "10", .int 0])])]),
   ("10", .obj [("class_type", .str "Reroute"),
                ("inputs", .obj [("x", .list [.str "11", .int 0])])]),
   ("11", .obj [("class_type", .str "CLIPTextEncode"),
                ("inputs", .obj [("text", .str "a cat")])])]

/-! ## Basic lemmas about the dict operations and the `Except` monad -/

theorem exceptBind_ok {ε : Type u} {α β : Type v} (a : α)
    (f : α → Except ε β) : (Except.ok a >>= f) = f a := rfl

theorem exceptBind_error {ε : Type u} {α β : Type v} (e : ε)
    (f : α → Except ε β) :
    ((Except.error e : Except ε α) >>= f) = Except.error e := rfl

theorem exceptPure {ε : Type u} {α : Type v} (a : α) :
    (pure a : Except ε α) = Except.ok a := rfl

theorem Obj.lookup_set_self (o : Obj) (k : String) (v : Value) :
    Obj.lookup (Obj.set o k v) k = some v := by
  induction o with
  | nil => simp [Obj.set, Obj.lookup]
  | cons kv rest ih =>
      obtain ⟨k', v'⟩ := kv
      by_cases h : k' = k
      · simp [Obj.set, h, Obj.lookup]
      · simp [Obj.set, h, Obj.lookup, ih]

theorem Obj.lookup_set_ne (o : Obj) (k k₂ : String) (v : Value)
    (h : k₂ ≠ k) : Obj.lookup (Obj.set o k v) k₂ = Obj.lookup o k₂ := by
  induction o with
  | nil => simp [Obj.set, Obj.lookup, Ne.symm h]
  | cons kv rest ih =>
      obtain ⟨k', v'⟩ := kv
      by_cases hk : k' = k
      · subst hk
        simp [Obj.set, Obj.lookup, Ne.symm h]
      · simp [Obj.set, hk, Obj.lookup, ih]

theorem Obj.set_set (o : Obj) (k : String) (v w : Value) :
    Obj.set (Obj.set o k v) k w = Obj.set o k w := by
  induction o with
  | nil => simp [Obj.set]
  | cons kv rest ih =>
      obtain ⟨k', v'⟩ := kv
      by_cases h : k' = k
      · simp [Obj.set, h]
      · simp [Obj.set, h, ih]

theorem Obj.keys_set_of_hasKey (o : Obj) (k : String) (v : Value)
    (h : Obj.hasKey o k = true) : Obj.keys (Obj.set o k v) = Obj.keys o := by
  induction o with
  | nil => simp [Obj.hasKey, Obj.lookup] at h
  | cons kv rest ih =>
      obtain ⟨k', v'⟩ := kv
      by_cases hk : k' = k
      · simp [Obj.set, hk, Obj.keys]
      · simp [Obj.hasKey, Obj.lookup, hk] at h
        have hr := ih h
        simp only [Obj.keys] at hr
        simp [Obj.set, hk, Obj.keys, hr]

theorem Obj.lookup_mem (o : Obj) (k : String) (v : Value)
    (h : Obj.lookup o k = some v) : (k, v) ∈ o := by
  induction o with
  | nil => simp [Obj.lookup] at h
  | cons kv rest ih =>
      obtain ⟨k', v'⟩ := kv
      by_cases hk : k' = k
      · subst hk
        simp [Obj.lookup] at h
        simp [h]
      · simp [Obj.lookup, hk] at h
        exact List.mem_cons_of_mem _ (ih h)

theorem Obj.mem_hasKey (o : Obj) (k : String) (v : Value)
    (h : (k, v) ∈ o) : Obj.hasKey o k = true := by
  induction o with
  | nil => simp at h
  | cons kv rest ih =>
      obtain ⟨k', v'⟩ := kv
      by_cases hk : k' = k
      · simp [Obj.hasKey, Obj.lookup, hk]
      · have h' : (k, v) ∈ rest := by
          rcases List.mem_cons.1 h with h1 | h1
          · simp at h1
            exact absurd h1.1.symm hk
          · exact h1
        simpa [Obj.hasKey, Obj.lookup, hk] using ih h'

theorem Obj.filter_set_key_false (o : Obj) (k : String) (v : Value)
    (q : String × Value → Bool) (hq : ∀ v', q (k, v') = false) :
    (Obj.set o k v).filter q = o.filter q := by
  induction o with
  | nil => simp [Obj.set, hq]
  | cons kv rest ih =>
      obtain ⟨k', v'⟩ := kv
      by_cases hk : k' = k
      · subst hk
        simp [Obj.set, List.filter_cons, hq]
      · simp [Obj.set, hk, List.filter_cons, ih]

theorem listGetD_append_left {α : Type} (l l' : List α) (i : Nat) (d : α)
    (h : i < l.length) : (l ++ l').getD i d = l.getD i d := by
  induction l generalizing i with
  | nil => simp at h
  | cons x rest ih =>
      cases i with
      | zero => simp [List.getD]
      | succ j =>
          simp only [List.length_cons] at h
          simpa [List.getD] using ih j (by omega)

theorem listGetD_append_self {α : Type} (l : List α) (x d : α) :
    (l ++ [x]).getD l.length d = x := by
  induction l with
  | nil => simp [List.getD]
  | cons y rest ih => simp [List.getD]

/-! ## Claim C7 — malformed references and exhausted depth -/

/-- C7 (counterexample): a one-element link reference is *not* a two-element
source/slot pair, yet `_trace_link_source` accepts it and returns a node id
rather than none — the malformed-reference check is only
`not isinstance(link_ref, list) or len(link_ref) < 1`
(workflow_parser.py:141). -/
theorem claim7_counterexample :
    traceLinkSource [("1", .obj [])] CLIP_TEXT_ENCODE_TYPES 10
      (.list [.str "1"]) = .ok (some "1") := by rfl

/-- C7 (amended): the tracer returns none — raising nothing — exactly when
the reference is not a non-empty list or the depth budget is exhausted; a
one-element list reference is accepted (see the counterexample). -/
theorem claim7_trace_none_on_rejected_reference (g : Obj)
    (tys : List String) (d : Nat) (ref : Value)
    (h : d = 0 ∨ notNonemptyList ref) :
    traceLinkSource g tys d ref = .ok none := by
  rcases h with h | h
  · subst h
    rfl
  · cases d with
    | zero => rfl
    | succ d' =>
        cases ref with
        | null => rfl
        | bool b => rfl
        | int n => rfl
        | str s => rfl
        | obj fs => rfl
        | list xs =>
            cases xs with
            | nil => rfl
            | cons x rest => simp [notNonemptyList] at h

/-- Witness for C7: the amended theorem applied to an exhausted depth budget
and to a malformed (non-list) reference. -/
theorem claim7_witness :
    traceLinkSource [] [] 0 .null = .ok none ∧
    traceLinkSource [("1", .obj [])] CLIP_TEXT_ENCODE_TYPES 10 .null = .ok none :=
  ⟨claim7_trace_none_on_rejected_reference [] [] 0 .null (Or.inl rfl),
   claim7_trace_none_on_rejected_reference [("1", .obj [])]
     CLIP_TEXT_ENCODE_TYPES 10 .null (Or.inr trivial)⟩

/-! ## Claim C10 — unknown workflow index -/

/-- C10: `prepare_workflow` on an index absent from the registry returns the
all-`None` triple without raising, and the whole parser state — registry
and heap — is returned unchanged (workflow_parser.py:264-267). -/
theorem claim10_prepare_unknown_index (st : ParserState) (i : Nat)
    (pos neg : String) (seed : Option Int) (img : Option String) (r : Int)
    (h : lookupIdx st.workflows i = none) :
    prepare_workflow st i pos neg seed img r = (st, .ok (none, none, none)) := by
  unfold prepare_workflow
  rw [h]

/-- Witness for C10 at a concrete empty registry. -/
theorem claim10_witness :
    prepare_workflow ⟨[], []⟩ 3 "p" "n" none none 5 =
      (⟨[], []⟩, .ok (none, none, none)) :=
  claim10_prepare_unknown_index ⟨[], []⟩ 3 "p" "n" none none 5 rfl

/-! ## Claim C8 — the stored template is never mutated -/

/-- C8: under valid template addresses, `prepare_workflow` leaves the
registry untouched and the graph stored at every registered template
address reads identically before and after the call — all writes go to the
freshly allocated deep copy (workflow_parser.py:269). -/
theorem claim8_prepare_never_mutates_templates (st : ParserState) (i : Nat)
    (pos neg : String) (seed : Option Int) (img : Option String) (r : Int)
    (hv : ∀ e ∈ st.workflows, e.2.workflow_data < st.heap.length) :
    (prepare_workflow st i pos neg seed img r).1.workflows = st.workflows ∧
    ∀ e ∈ st.workflows,
      (prepare_workflow st i pos neg seed img r).1.heap.getD
          e.2.workflow_data []
        = st.heap.getD e.2.workflow_data [] := by
  have key : (prepare_workflow st i pos neg seed img r).1 = st ∨
      ∃ g : Obj, (prepare_workflow st i pos neg seed img r).1 =
        ⟨st.workflows, st.heap ++ [g]⟩ := by
    unfold prepare_workflow
    split
    · left
      rfl
    · split <;> (dsimp only; split <;> exact Or.inr ⟨_, rfl⟩)
  rcases key with hkey | ⟨g, hkey⟩
  · rw [hkey]
    exact ⟨rfl, fun e _ => rfl⟩
  · rw [hkey]
    refine ⟨rfl, fun e he => ?_⟩
    exact listGetD_append_left st.heap [g] e.2.workflow_data [] (hv e he)

/-- Witness for C8: a concrete one-template store; the template holds a
sentinel seed, preparation rewrites the copy, and the stored template is
untouched. -/
theorem claim8_witness :
    (prepare_workflow
        ⟨[(1, { name := "wf", workflow_data := 0, node_mapping :=
            { sampler_node := some "3", sampler_nodes := ["3"] } })],
         [[("3", .obj [("class_type", .str "KSampler"),
                       ("inputs", .obj [("seed", .int (-1))])])]]⟩
        1 "p" "n" (some 7) none 5).1.workflows =
      [(1, { name := "wf", workflow_data := 0, node_mapping :=
          { sampler_node := some "3", sampler_nodes := ["3"] } })] ∧
    ∀ e ∈ [((1 : Nat), { name := "wf", workflow_data := 0, node_mapping :=
        { sampler_node := some "3", sampler_nodes := ["3"] } : WorkflowInfo })],
      (prepare_workflow
          ⟨[(1, { name := "wf", workflow_data := 0, node_mapping :=
              { sampler_node := some "3", sampler_nodes := ["3"] } })],
           [[("3", .obj [("class_type", .str "KSampler"),
                         ("inputs", .obj [("seed", .int (-1))])])]]⟩
          1 "p" "n" (some 7) none 5).1.heap.getD e.2.workflow_data []
        = [[("3", .obj [("class_type", .str "KSampler"),
                        ("inputs", .obj [("seed", .int (-1))])])]].getD
            e.2.workflow_data [] :=
  claim8_prepare_never_mutates_templates _ 1 "p" "n" (some 7) none 5
    (by
      intro e he
      simp at he
      subst he
      simp)

/-! ## Claim C3 — terminal failure classifications -/

/-- C3 (counterexample): the artifact-fetch-failure run (an image was found
but its byte fetch returned nothing) produces *exactly* the same terminal
result — the "未找到输出图像" / no-output classification — as the run where
no image exists at all, so the two classifications are not distinct
(comfyui_client.py:197-206 falls through to the same return). -/
theorem claim3_counterexample :
    execute_workflow (some "42", some 5) none
      (true,
       some (.obj [("outputs", .obj [("9", .obj [("images",
         .list [.obj [("filename", .str "out.png"), ("subfolder", .str ""),
                      ("type", .str "output")]])])])]),
       "执行完成")
      (fun _ _ _ => none) =
      .ok (false, none, "未找到输出图像", some 5) ∧
    execute_workflow (some "42", some 5) none
      (true, some (.obj [("outputs", .obj [])]), "执行完成")
      (fun _ _ _ => none) =
      .ok (false, none, "未找到输出图像", some 5) :=
  ⟨rfl, rfl⟩

/-- C3 (amended): completion without any discovered image and a failed byte
fetch of the chosen image both resolve to the *same* "未找到输出图像"
classification — the code does not distinguish artifact-fetch failure from
no-output.  That shared classification, the submit-failure classification
and the poll loop's execution-error classification are pairwise
distinct. -/
theorem claim3_failure_classifications (pid : String) (ds ks : Option Int)
    (r : Option Value) (msg : String)
    (fetch : Value → Value → Value → Option (List Nat))
    (hpid : pid ≠ "") :
    (extractTargetImage r = .ok none →
      execute_workflow (some pid, ds) ks (true, r, msg) fetch =
        .ok (false, none, "未找到输出图像",
          match ks with | some s => some s | none => ds)) ∧
    (∀ img, extractTargetImage r = .ok (some img) →
      fetch img.filename img.subfolder img.ftype = none →
      execute_workflow (some pid, ds) ks (true, r, msg) fetch =
        .ok (false, none, "未找到输出图像",
          match ks with | some s => some s | none => ds)) ∧
    (∀ out, execute_workflow (some pid, ds) ks (false, out, msg) fetch =
      .ok (false, none, msg,
        match ks with | some s => some s | none => ds)) ∧
    (∀ ds' waitRes, execute_workflow (none, ds') ks waitRes fetch =
      .ok (false, none, "提交工作流失败", none)) ∧
    (∀ h pid' out m, pollStep h pid' = .ok (some (false, out, m)) →
      m = "执行出错") ∧
    ("未找到输出图像" ≠ "提交工作流失败" ∧ "未找到输出图像" ≠ "执行出错") := by
  refine ⟨?_, ?_, ?_, ?_, ?_, by decide, by decide⟩
  · intro hext
    simp [execute_workflow, optStrTruthy, hpid, hext, exceptBind_ok, exceptPure]
  · intro img hext hfetch
    simp [execute_workflow, optStrTruthy, hpid, hext, hfetch, exceptBind_ok,
      exceptPure]
  · intro out
    simp [execute_workflow, optStrTruthy, hpid, exceptPure]
  · intro ds' waitRes
    simp [execute_workflow, optStrTruthy, exceptPure]
  · intro h pid' out m hstep
    unfold pollStep at hstep
    by_cases ht : h.truthy
    · simp only [ht, if_true] at hstep
      cases hmem : pyContains pid' h with
      | error e => simp [hmem, exceptBind_error] at hstep
      | ok b =>
          simp only [hmem, exceptBind_ok] at hstep
          cases b with
          | false => simp [exceptPure] at hstep
          | true =>
              simp only [if_true] at hstep
              cases hph : h.subscriptStr pid' with
              | error e => simp [hph, exceptBind_error] at hstep
              | ok ph =>
                  simp only [hph, exceptBind_ok] at hstep
                  cases hout : pyContains "outputs" ph with
                  | error e => simp [hout, exceptBind_error] at hstep
                  | ok bo =>
                      simp only [hout, exceptBind_ok] at hstep
                      cases bo with
                      | false => simp [exceptPure] at hstep
                      | true =>
                          simp only [if_true] at hstep
                          cases hst : pyContains "status" ph with
                          | error e => simp [hst, exceptBind_error] at hstep
                          | ok bs =>
                              simp only [hst, exceptBind_ok] at hstep
                              cases bs with
                              | false => simp [exceptPure] at hstep
                              | true =>
                                  simp only [if_true] at hstep
                                  cases hsv : ph.subscriptStr "status" with
                                  | error e =>
                                      simp [hsv, exceptBind_error] at hstep
                                  | ok sv =>
                                      simp only [hsv, exceptBind_ok] at hstep
                                      cases hss : pyGet sv "status_str" .null with
                                      | error e =>
                                          simp [hss, exceptBind_error] at hstep
                                      | ok ssv =>
                                          simp only [hss, exceptBind_ok] at hstep
                                          by_cases he : ssv.eqStr "error"
                                          · simp [he, exceptPure] at hstep
                                            exact hstep.2.symm
                                          · simp [he, exceptPure] at hstep
    · simp [ht, exceptPure] at hstep

/-- Witness for C3 at a concrete completed history whose single image's
fetch fails. -/
theorem claim3_witness :
    execute_workflow (some "42", some 5) none
      (true,
       some (.obj [("outputs", .obj [("9", .obj [("images",
         .list [.obj [("filename", .str "img.png"), ("subfolder", .str ""),
                      ("type", .str "output")]])])])]),
       "执行完成")
      (fun _ _ _ => none) =
      .ok (false, none, "未找到输出图像", some 5) :=
  (claim3_failure_classifications "42" (some 5) none
      (some (.obj [("outputs", .obj [("9", .obj [("images",
        .list [.obj [("filename", .str "img.png"), ("subfolder", .str ""),
                     ("type", .str "output")]])])])]))
      "执行完成" (fun _ _ _ => none) (by decide)).2.1
    ⟨.str "img.png", .str "", .str "output"⟩ rfl rfl

/-! ## Per-key and per-node lemmas about the seed enforcer -/

theorem seedNamed_cag : seedNamed "control_after_generate" = false := by decide

theorem processSeedKey_ok_concrete (rand : Nat → Int) (ct : Value) (ifs : Obj)
    (st : EnforceState) (key : String) (cur : Value)
    (res : Value × EnforceState)
    (hcur : Obj.lookup ifs key = some cur) (hnum : cur.isNumber = true)
    (hsent : cur.eqInt (-1) = false)
    (h : processSeedKey rand ct (.obj ifs, st) key = .ok res) :
    res.1 = .obj ifs := by
  unfold processSeedKey at h
  simp only [Value.subscriptStr, hcur, exceptBind_ok, hnum, hsent,
    Bool.not_true, Bool.false_or, Bool.or_self, if_false, exceptPure] at h
  cases hc : pyContains "Sampler" ct with
  | error e => rw [hc] at h; exact absurd h (by simp [exceptBind_error])
  | ok b =>
      rw [hc] at h
      simp only [exceptBind_ok] at h
      cases b with
      | true =>
          simp only [if_true, exceptPure] at h
          cases h
          rfl
      | false =>
          by_cases hm : st.mainSeed.isNone <;>
            simp only [hm, if_true, if_false, Bool.false_eq_true, exceptPure] at h <;>
            (cases h; rfl)

theorem processSeedKey_ok_scrub (rand : Nat → Int) (ct : Value)
    (inputs : Value) (st : EnforceState) (key : String)
    (res : Value × EnforceState)
    (hseedy : seedNamed key = true)
    (h : processSeedKey rand ct (inputs, st) key = .ok res) :
    scrubInputs res.1 = scrubInputs inputs := by
  unfold processSeedKey at h
  cases inputs with
  | obj ifs =>
      simp only [Value.subscriptStr] at h
      cases hcur : Obj.lookup ifs key with
      | none => rw [hcur] at h; exact absurd h (by simp [exceptBind_error])
      | some cur =>
          rw [hcur] at h
          simp only [exceptBind_ok] at h
          have hscrub : ∀ w : Value,
              scrubInputs (.obj (Obj.set ifs key w)) = scrubInputs (.obj ifs) := by
            intro w
            simp only [scrubInputs]
            rw [Obj.filter_set_key_false]
            intro v'
            simp [hseedy]
          by_cases hrnd : (!cur.isNumber || cur.eqInt (-1)) = true
      
      
          · simp only [hrnd, if_true, Value.setItemStr, exceptBind_ok,
              exceptPure] at h
            simp only [Obj.lookup_set_self, exceptBind_ok] at h
            cases hc : pyContains "Sampler" ct with
            | error e => rw [hc] at h; exact absurd h (by simp [exceptBind_error])
            | ok b =>
                rw [hc] at h
                simp only [exceptBind_ok] at h
                cases b with
                | true =>
                    simp only [if_true, exceptPure] at h
                    cases h
                    exact hscrub _
                | false =>
                    by_cases hm : st.mainSeed.isNone <;>
                      simp only [hm, if_true, if_false, Bool.false_eq_true,
                        exceptPure] at h <;>
                      (cases h; exact hscrub _)
          · simp only [hrnd, Bool.false_eq_true, if_false, exceptPure,
              exceptBind_ok] at h
            simp only [Value.subscriptStr, hcur, exceptBind_ok] at h
            cases hc : pyContains "Sampler" ct with
            | error e => rw [hc] at h; exact absurd h (by simp [exceptBind_error])
            | ok b =>
                rw [hc] at h
                simp only [exceptBind_ok] at h
                cases b with
                | true =>
                    simp only [if_true, exceptPure] at h
                    cases h
                    rfl
                | false =>
                    by_cases hm : st.mainSeed.isNone <;>
                      simp only [hm, if_true, if_false, Bool.false_eq_true,
                        exceptPure] at h <;>
                      (cases h; rfl)
  | null => exact absurd h (by simp [Value.subscriptStr, exceptBind_error])
  | bool b => exact absurd h (by simp [Value.subscriptStr, exceptBind_error])
  | int n => exact absurd h (by simp [Value.subscriptStr, exceptBind_error])
  | str s => exact absurd h (by simp [Value.subscriptStr, exceptBind_error])
  | list xs => exact absurd h (by simp [Value.subscriptStr, exceptBind_error])

theorem foldProcess_ok_concrete (rand : Nat → Int) (ct : Value)
    (ks : List String) :
    ∀ (ifs : Obj) (st : EnforceState) (res : Value × EnforceState),
      (∀ k ∈ ks, ∃ cur, Obj.lookup ifs k = some cur ∧ cur.isNumber = true ∧
        cur.eqInt (-1) = false) →
      List.foldlM (processSeedKey rand ct) (.obj ifs, st) ks = .ok res →
      res.1 = .obj ifs := by
  induction ks with
  | nil =>
      intro ifs st res _ h
      rw [List.foldlM_nil, exceptPure] at h
      cases h
      rfl
  | cons k rest ih =>
      intro ifs st res hall h
      rw [List.foldlM_cons] at h
      cases hstep : processSeedKey rand ct (.obj ifs, st) k with
      | error e => rw [hstep] at h; exact absurd h (by simp [exceptBind_error])
      | ok acc =>
          rw [hstep, exceptBind_ok] at h
          obtain ⟨cur, hcur, hnum, hsent⟩ := hall k (List.mem_cons_self k rest)
          have hfst := processSeedKey_ok_concrete rand ct ifs st k cur acc
            hcur hnum hsent hstep
          obtain ⟨a1, a2⟩ := acc
          simp only at hfst
          subst hfst
          exact ih ifs a2 res (fun k' hk' => hall k' (List.mem_cons_of_mem _ hk')) h

theorem foldProcess_ok_scrub (rand : Nat → Int) (ct : Value)
    (ks : List String) :
    ∀ (inputs : Value) (st : EnforceState) (res : Value × EnforceState),
      (∀ k ∈ ks, seedNamed k = true) →
      List.foldlM (processSeedKey rand ct) (inputs, st) ks = .ok res →
      scrubInputs res.1 = scrubInputs inputs := by
  induction ks with
  | nil =>
      intro inputs st res _ h
      rw [List.foldlM_nil, exceptPure] at h
      cases h
      rfl
  | cons k rest ih =>
      intro inputs st res hall h
      rw [List.foldlM_cons] at h
      cases hstep : processSeedKey rand ct (inputs, st) k with
      | error e => rw [hstep] at h; exact absurd h (by simp [exceptBind_error])
      | ok acc =>
          rw [hstep, exceptBind_ok] at h
          have h1 := processSeedKey_ok_scrub rand ct inputs st k acc
            (hall k (List.mem_cons_self k rest)) hstep
          obtain ⟨a1, a2⟩ := acc
          have h2 := ih a1 a2 res
            (fun k' hk' => hall k' (List.mem_cons_of_mem _ hk')) h
          rw [h2, h1]

theorem pin_ok_scrub (inputs out : Value)
    (h : pinControlAfterGenerate inputs = .ok out) :
    scrubInputs out = scrubInputs inputs := by
  unfold pinControlAfterGenerate at h
  cases hc : pyContains "control_after_generate" inputs with
  | error e => rw [hc] at h; exact absurd h (by simp [exceptBind_error])
  | ok present =>
      rw [hc, exceptBind_ok] at h
      cases present with
      | false =>
          simp only [Bool.false_eq_true, if_false, exceptPure] at h
          cases h
          rfl
      | true =>
          simp only [if_true] at h
          cases inputs with
          | obj ifs =>
              simp only [Value.subscriptStr] at h
              cases hl : Obj.lookup ifs "control_after_generate" with
              | none => rw [hl] at h; exact absurd h (by simp [exceptBind_error])
              | some v =>
                  rw [hl] at h
                  simp only [exceptBind_ok] at h
                  by_cases hv : (v.eqStr "randomize" || v.eqStr "increment" ||
                      v.eqStr "decrement") = true
                  · simp only [hv, if_true, Value.setItemStr] at h
                    cases h
                    simp only [scrubInputs]
                    rw [Obj.filter_set_key_false]
                    intro v'
                    simp [seedNamed_cag]
                  · simp only [hv, Bool.false_eq_true, if_false,
                      exceptPure] at h
                    cases h
                    rfl
          | null => exact absurd hc (by simp [pyContains])
          | bool b => exact absurd hc (by simp [pyContains])
          | int n => exact absurd hc (by simp [pyContains])
          | str s =>
              simp only [Value.subscriptStr, exceptBind_error] at h
              exact absurd h (by simp)
          | list xs =>
              simp only [Value.subscriptStr, exceptBind_error] at h
              exact absurd h (by simp)

theorem Obj.lookup_isSome_of_mem_keys (o : Obj) (k : String)
    (h : k ∈ Obj.keys o) : ∃ v, Obj.lookup o k = some v := by
  induction o with
  | nil => simp [Obj.keys] at h
  | cons kv rest ih =>
      obtain ⟨k', v'⟩ := kv
      by_cases hk : k' = k
      · exact ⟨v', by simp [Obj.lookup, hk]⟩
      · have : k ∈ Obj.keys rest := by
          simp [Obj.keys] at h ⊢
          rcases h with h | h
          · exact absurd h.symm hk
          · exact h
        obtain ⟨v, hv⟩ := ih this
        exact ⟨v, by simp [Obj.lookup, hk, hv]⟩

theorem seedKeysOf_ok_seedy (inputs : Value) (ks : List String)
    (h : seedKeysOf inputs = .ok ks) : ∀ k ∈ ks, seedNamed k = true := by
  cases inputs with
  | obj fs =>
      simp only [seedKeysOf] at h
      cases h
      intro k hk
      exact (List.mem_filter.1 hk).2
  | str s =>
      simp only [seedKeysOf] at h
      cases h
      intro k hk
      simp at hk
  | list xs =>
      simp only [seedKeysOf] at h
      by_cases hall : (xs.all fun v => match v with
          | .str _ => true | _ => false) = true
      · rw [if_pos hall] at h
        cases h
        intro k hk
        exact (List.mem_filter.1 hk).2
      · rw [if_neg hall] at h
        exact absurd h (by simp)
  | null => exact absurd h (by simp [seedKeysOf])
  | bool b => exact absurd h (by simp [seedKeysOf])
  | int n => exact absurd h (by simp [seedKeysOf])

theorem foldProcess_ok_nonobj (rand : Nat → Int) (ct : Value)
    (ks : List String) (inputs : Value)
    (hno : ∀ ifs : Obj, inputs ≠ .obj ifs) :
    ∀ (st : EnforceState) (res : Value × EnforceState),
      List.foldlM (processSeedKey rand ct) (inputs, st) ks = .ok res →
      res.1 = inputs := by
  cases ks with
  | nil =>
      intro st res h
      rw [List.foldlM_nil, exceptPure] at h
      cases h
      rfl
  | cons k rest =>
      intro st res h
      rw [List.foldlM_cons] at h
      have : processSeedKey rand ct (inputs, st) k = .error .typeError := by
        cases inputs with
        | obj ifs => exact absurd rfl (hno ifs)
        | null => rfl
        | bool b => rfl
        | int n => rfl
        | str s => rfl
        | list xs => rfl
      rw [this, exceptBind_error] at h
      exact absurd h (by simp)

theorem pin_ok_shape (inputs out : Value)
    (h : pinControlAfterGenerate inputs = .ok out) :
    out = inputs ∨ ∃ ifs : Obj, inputs = .obj ifs ∧
      out = .obj (Obj.set ifs "control_after_generate" (.str "fixed")) := by
  unfold pinControlAfterGenerate at h
  cases hc : pyContains "control_after_generate" inputs with
  | error e => rw [hc] at h; exact absurd h (by simp [exceptBind_error])
  | ok present =>
      rw [hc, exceptBind_ok] at h
      cases present with
      | false =>
          simp only [Bool.false_eq_true, if_false, exceptPure] at h
          cases h
          left
          rfl
      | true =>
          simp only [if_true] at h
          cases inputs with
          | obj ifs =>
              simp only [Value.subscriptStr] at h
              cases hl : Obj.lookup ifs "control_after_generate" with
              | none => rw [hl] at h; exact absurd h (by simp [exceptBind_error])
              | some v =>
                  rw [hl] at h
                  simp only [exceptBind_ok] at h
                  by_cases hv : (v.eqStr "randomize" || v.eqStr "increment" ||
                      v.eqStr "decrement") = true
                  · simp only [hv, if_true, Value.setItemStr] at h
                    cases h
                    right
                    exact ⟨ifs, rfl, rfl⟩
                  · simp only [hv, Bool.false_eq_true, if_false,
                      exceptPure] at h
                    cases h
                    left
                    rfl
          | null => exact absurd hc (by simp [pyContains])
          | bool b => exact absurd hc (by simp [pyContains])
          | int n => exact absurd hc (by simp [pyContains])
          | str s =>
              simp only [Value.subscriptStr, exceptBind_error] at h
              exact absurd h (by simp)
          | list xs =>
              simp only [Value.subscriptStr, exceptBind_error] at h
              exact absurd h (by simp)

theorem enforceNode_ok_scrub (rand : Nat → Int) (node : Value)
    (st : EnforceState) (res : Value × EnforceState)
    (h : enforceNode rand node st = .ok res) :
    scrubNode res.1 = scrubNode node := by
  cases node with
  | obj fields =>
      unfold enforceNode at h
      dsimp only at h
      cases hlk : Obj.lookup fields "inputs" with
      | none =>
          rw [hlk] at h
          cases h
          rfl
      | some inputs =>
          rw [hlk] at h
          dsimp only at h
          cases hsk : seedKeysOf inputs with
          | error e => rw [hsk] at h; exact absurd h (by simp [exceptBind_error])
          | ok ks =>
              rw [hsk, exceptBind_ok] at h
              cases hfold : List.foldlM (processSeedKey rand
                  (Obj.getD fields "class_type" (.str ""))) (inputs, st) ks with
              | error e =>
                  rw [hfold] at h
                  exact absurd h (by simp [exceptBind_error])
              | ok acc =>
                  rw [hfold, exceptBind_ok] at h
                  obtain ⟨v1, st1⟩ := acc
                  simp only at h
                  cases hpin : pinControlAfterGenerate v1 with
                  | error e =>
                      rw [hpin] at h
                      exact absurd h (by simp [exceptBind_error])
                  | ok v2 =>
                      rw [hpin, exceptBind_ok] at h
                      cases h
                      have hs1 : scrubInputs v1 = scrubInputs inputs :=
                        foldProcess_ok_scrub rand _ ks inputs st (v1, st1)
                          (seedKeysOf_ok_seedy inputs ks hsk) hfold
                      have hs2 : scrubInputs v2 = scrubInputs v1 :=
                        pin_ok_scrub v1 v2 hpin
                      simp only [scrubNode, Obj.lookup_set_self, Obj.set_set,
                        hs2, hs1, hlk]
  | null => cases h; rfl
  | bool b => cases h; rfl
  | int n => cases h; rfl
  | str s => cases h; rfl
  | list xs => cases h; rfl

theorem enforceNode_ok_seedFields (rand : Nat → Int) (node : Value)
    (st : EnforceState) (res : Value × EnforceState)
    (hconc : ∀ kv ∈ seedFieldsOfNode node,
      kv.2.isNumber = true ∧ kv.2.eqInt (-1) = false)
    (h : enforceNode rand node st = .ok res) :
    seedFieldsOfNode res.1 = seedFieldsOfNode node := by
  cases node with
  | obj fields =>
      unfold enforceNode at h
      dsimp only at h
      cases hlk : Obj.lookup fields "inputs" with
      | none =>
          rw [hlk] at h
          cases h
          rfl
      | some inputs =>
          rw [hlk] at h
          dsimp only at h
          cases hsk : seedKeysOf inputs with
          | error e => rw [hsk] at h; exact absurd h (by simp [exceptBind_error])
          | ok ks =>
              rw [hsk, exceptBind_ok] at h
              cases hfold : List.foldlM (processSeedKey rand
                  (Obj.getD fields "class_type" (.str ""))) (inputs, st) ks with
              | error e =>
                  rw [hfold] at h
                  exact absurd h (by simp [exceptBind_error])
              | ok acc =>
                  rw [hfold, exceptBind_ok] at h
                  obtain ⟨v1, st1⟩ := acc
                  simp only at h
                  cases hpin : pinControlAfterGenerate v1 with
                  | error e =>
                      rw [hpin] at h
                      exact absurd h (by simp [exceptBind_error])
                  | ok v2 =>
                      rw [hpin, exceptBind_ok] at h
                      cases h
                      cases inputs with
                      | obj ifs =>
                          have hks : ks =
                              (Obj.keys ifs).filter fun k => seedNamed k := by
                            simp only [seedKeysOf] at hsk
                            cases hsk
                            rfl
                          have hv1 : v1 = .obj ifs := by
                            refine foldProcess_ok_concrete rand _ ks ifs st
                              (v1, st1) ?_ hfold
                            intro k hk
                            rw [hks] at hk
                            have hkeys := (List.mem_filter.1 hk).1
                            have hsdy := (List.mem_filter.1 hk).2
                            obtain ⟨cur, hcur⟩ :=
                              Obj.lookup_isSome_of_mem_keys ifs k hkeys
                            have hmem : (k, cur) ∈ ifs.filter
                                fun kv => seedNamed kv.1 :=
                              List.mem_filter.2 ⟨Obj.lookup_mem ifs k cur hcur,
                                hsdy⟩
                            have := hconc (k, cur)
                              (by simpa [seedFieldsOfNode, hlk] using hmem)
                            exact ⟨cur, hcur, this.1, this.2⟩
                          subst hv1
                          rcases pin_ok_shape _ _ hpin with hsh | ⟨ifs', heq, hsh⟩
                          · subst hsh
                            simp [seedFieldsOfNode, Obj.lookup_set_self, hlk]
                          · cases heq
                            subst hsh
                            simp only [seedFieldsOfNode, Obj.lookup_set_self,
                              hlk]
                            rw [Obj.filter_set_key_false]
                            intro v'
                            simp [seedNamed_cag]
                      | null => exact absurd hsk (by simp [seedKeysOf])
                      | bool b => exact absurd hsk (by simp [seedKeysOf])
                      | int n => exact absurd hsk (by simp [seedKeysOf])
                      | str s =>
                          have hv1 := foldProcess_ok_nonobj rand _ ks (.str s)
                            (by intro ifs; simp) st (v1, st1) hfold
                          simp only at hv1
                          subst hv1
                          rcases pin_ok_shape _ _ hpin with hsh | ⟨i, hi, _⟩
                          · subst hsh
                            simp [seedFieldsOfNode, Obj.lookup_set_self, hlk]
                          · exact absurd hi (by simp)
                      | list xs =>
                          have hv1 := foldProcess_ok_nonobj rand _ ks (.list xs)
                            (by intro ifs; simp) st (v1, st1) hfold
                          simp only at hv1
                          subst hv1
                          rcases pin_ok_shape _ _ hpin with hsh | ⟨i, hi, _⟩
                          · subst hsh
                            simp [seedFieldsOfNode, Obj.lookup_set_self, hlk]
                          · exact absurd hi (by simp)
  | null => cases h; rfl
  | bool b => cases h; rfl
  | int n => cases h; rfl
  | str s => cases h; rfl
  | list xs => cases h; rfl

theorem enforceNodes_ok_scrub (rand : Nat → Int) :
    ∀ (g : List (String × Value)) (st : EnforceState)
      (res : List (String × Value) × EnforceState),
      enforceNodes rand g st = .ok res → scrubGraph res.1 = scrubGraph g := by
  intro g
  induction g with
  | nil =>
      intro st res h
      cases h
      rfl
  | cons kn rest ih =>
      intro st res h
      obtain ⟨k, node⟩ := kn
      unfold enforceNodes at h
      cases hn : enforceNode rand node st with
      | error e => rw [hn] at h; exact absurd h (by simp [exceptBind_error])
      | ok acc =>
          rw [hn, exceptBind_ok] at h
          obtain ⟨n', st1⟩ := acc
          simp only at h
          cases hr : enforceNodes rand rest st1 with
          | error e => rw [hr] at h; exact absurd h (by simp [exceptBind_error])
          | ok acc2 =>
              rw [hr, exceptBind_ok] at h
              obtain ⟨rest', st2⟩ := acc2
              simp only at h
              cases h
              have h1 := enforceNode_ok_scrub rand node st (n', st1) hn
              have h2 := ih st1 (rest', st2) hr
              simp only [scrubGraph, List.map_cons] at h2 ⊢
              simp only at h1
              rw [h1, h2]

theorem enforceNodes_ok_seedFields (rand : Nat → Int) :
    ∀ (g : List (String × Value)) (st : EnforceState)
      (res : List (String × Value) × EnforceState),
      (∀ kn ∈ g, ∀ kv ∈ seedFieldsOfNode kn.2,
        kv.2.isNumber = true ∧ kv.2.eqInt (-1) = false) →
      enforceNodes rand g st = .ok res → seedFields res.1 = seedFields g := by
  intro g
  induction g with
  | nil =>
      intro st res _ h
      cases h
      rfl
  | cons kn rest ih =>
      intro st res hconc h
      obtain ⟨k, node⟩ := kn
      unfold enforceNodes at h
      cases hn : enforceNode rand node st with
      | error e => rw [hn] at h; exact absurd h (by simp [exceptBind_error])
      | ok acc =>
          rw [hn, exceptBind_ok] at h
          obtain ⟨n', st1⟩ := acc
          simp only at h
          cases hr : enforceNodes rand rest st1 with
          | error e => rw [hr] at h; exact absurd h (by simp [exceptBind_error])
          | ok acc2 =>
              rw [hr, exceptBind_ok] at h
              obtain ⟨rest', st2⟩ := acc2
              simp only at h
              cases h
              have h1 := enforceNode_ok_seedFields rand node st (n', st1)
                (hconc (k, node) (List.mem_cons_self _ _)) hn
              have h2 := ih st1 (rest', st2)
                (fun kn hkn => hconc kn (List.mem_cons_of_mem _ hkn)) hr
              simp only [seedFields, List.map_cons] at h2 ⊢
              simp only at h1
              rw [h1, h2]

theorem allSeedsConcrete_toForall (g : Obj) (h : allSeedsConcrete g = true) :
    ∀ kn ∈ g, ∀ kv ∈ seedFieldsOfNode kn.2,
      kv.2.isNumber = true ∧ kv.2.eqInt (-1) = false := by
  intro kn hkn kv hkv
  simp only [allSeedsConcrete, List.all_eq_true] at h
  have := h kn hkn
  simp only [List.all_eq_true] at this
  have := this kv hkv
  simp only [Bool.and_eq_true, Bool.not_eq_true'] at this
  exact this

theorem allSeedsConcrete_congr (a b : Obj) (h : seedFields a = seedFields b) :
    allSeedsConcrete a = allSeedsConcrete b := by
  have key : ∀ c : Obj, allSeedsConcrete c = (seedFields c).all
      fun ns => ns.2.all fun kv => kv.2.isNumber && !kv.2.eqInt (-1) := by
    intro c
    induction c with
    | nil => rfl
    | cons kn rest ih =>
        simp only [allSeedsConcrete, seedFields, List.map_cons,
          List.all_cons] at ih ⊢
        rw [← ih]
  rw [key, key, h]

/-! ## Claim C4 — seed enforcement is idempotent on concrete seeds -/

/-- C4: on a graph whose seed-named fields are all concrete numbers and
never the sentinel `-1`, the enforcer returns every seed field byte for
byte unchanged, and a second run (under any randomness) again returns the
same seed fields (comfyui_client.py:224-227 leaves concrete non-sentinel
values untouched). -/
theorem claim4_enforce_idempotent_on_concrete (g : Obj)
    (rand1 rand2 : Nat → Int) (g1 : Obj) (s1 : Int)
    (hconc : allSeedsConcrete g = true)
    (h1 : enforceDeterministicWorkflow rand1 g = .ok (g1, s1)) :
    seedFields g1 = seedFields g ∧
    ∀ g2 s2, enforceDeterministicWorkflow rand2 g1 = .ok (g2, s2) →
      seedFields g2 = seedFields g := by
  have main : ∀ (rand : Nat → Int) (a b : Obj) (s : Int),
      allSeedsConcrete a = true →
      enforceDeterministicWorkflow rand a = .ok (b, s) →
      seedFields b = seedFields a := by
    intro rand a b s hc h
    unfold enforceDeterministicWorkflow at h
    cases hn : enforceNodes rand a ⟨0, none, none⟩ with
    | error e => rw [hn] at h; exact absurd h (by simp [exceptBind_error])
    | ok res =>
        rw [hn, exceptBind_ok] at h
        obtain ⟨nodes, st⟩ := res
        simp only at h
        cases h
        exact enforceNodes_ok_seedFields rand a ⟨0, none, none⟩ _
          (allSeedsConcrete_toForall a hc) hn
  have e1 : seedFields g1 = seedFields g := main rand1 g g1 s1 hconc h1
  refine ⟨e1, fun g2 s2 h2 => ?_⟩
  have hc1 : allSeedsConcrete g1 = true := by
    rw [allSeedsConcrete_congr g1 g e1]
    exact hconc
  rw [main rand2 g1 g2 s2 hc1 h2]
  exact e1

/-- Witness for C4: a graph with two concrete seed fields; both enforcement
runs keep them byte-identical. -/
theorem claim4_witness :
    seedFields [("1", .obj [("class_type", .str "KSampler"),
        ("inputs", .obj [("seed", .int 11), ("steps", .int 20)])]),
      ("2", .obj [("class_type", .str "X"),
        ("inputs", .obj [("noise_seed", .int 3)])])] =
      seedFields [("1", .obj [("class_type", .str "KSampler"),
        ("inputs", .obj [("seed", .int 11), ("steps", .int 20)])]),
      ("2", .obj [("class_type", .str "X"),
        ("inputs", .obj [("noise_seed", .int 3)])])] ∧
    ∀ g2 s2, enforceDeterministicWorkflow (fun _ => 9)
        [("1", .obj [("class_type", .str "KSampler"),
          ("inputs", .obj [("seed", .int 11), ("steps", .int 20)])]),
         ("2", .obj [("class_type", .str "X"),
          ("inputs", .obj [("noise_seed", .int 3)])])] = .ok (g2, s2) →
      seedFields g2 = seedFields [("1", .obj [("class_type", .str "KSampler"),
        ("inputs", .obj [("seed", .int 11), ("steps", .int 20)])]),
      ("2", .obj [("class_type", .str "X"),
        ("inputs", .obj [("noise_seed", .int 3)])])] := by
  have h := claim4_enforce_idempotent_on_concrete
    [("1", .obj [("class_type", .str "KSampler"),
      ("inputs", .obj [("seed", .int 11), ("steps", .int 20)])]),
     ("2", .obj [("class_type", .str "X"),
      ("inputs", .obj [("noise_seed", .int 3)])])]
    (fun _ => 7) (fun _ => 9) _ _ (by decide) rfl
  exact ⟨h.1, h.2⟩

/-! ## Claim C9 — the enforcer touches only seed fields and
`control_after_generate` -/

/-- C9: whatever the graph and randomness, a successful enforcement returns
a graph that agrees with its input everywhere outside seed-named input
fields and `control_after_generate` — node ids, order, class types,
metadata and all other input fields are preserved byte for byte
(comfyui_client.py:216-236 assigns only such keys). -/
theorem claim9_enforce_frame (g : Obj) (rand : Nat → Int) (g' : Obj)
    (s : Int) (h : enforceDeterministicWorkflow rand g = .ok (g', s)) :
    scrubGraph g' = scrubGraph g := by
  unfold enforceDeterministicWorkflow at h
  cases hn : enforceNodes rand g ⟨0, none, none⟩ with
  | error e => rw [hn] at h; exact absurd h (by simp [exceptBind_error])
  | ok res =>
      rw [hn, exceptBind_ok] at h
      obtain ⟨nodes, st⟩ := res
      simp only at h
      cases h
      exact enforceNodes_ok_scrub rand g ⟨0, none, none⟩ _ hn

/-- Witness for C9: a graph with a sentinel seed and a `randomize` control;
enforcement rewrites both, and the scrubbed views agree. -/
theorem claim9_witness :
    scrubGraph [("1", .obj [("class_type", .str "KSampler"),
      ("inputs", .obj [("seed", .int 9), ("steps", .int 20),
        ("control_after_generate", .str "fixed")])])] =
    scrubGraph [("1", .obj [("class_type", .str "KSampler"),
      ("inputs", .obj [("seed", .int (-1)), ("steps", .int 20),
        ("control_after_generate", .str "randomize")])])] :=
  claim9_enforce_frame
    [("1", .obj [("class_type", .str "KSampler"),
      ("inputs", .obj [("seed", .int (-1)), ("steps", .int 20),
        ("control_after_generate", .str "randomize")])])]
    (fun _ => 9) _ 9 rfl

/-! ## Lemmas about link tracing along passthrough chains -/

theorem trace_of_chain (g : Obj) (tys : List String) (ref : Value) (k : Nat)
    (target : String) (hchain : PassChainTo g tys ref k target) :
    ∀ d : Nat, k < d → traceLinkSource g tys d ref = .ok (some target) := by
  induction hchain with
  | found x rest flds hlk hty =>
      intro d hd
      cases d with
      | zero => omega
      | succ d' =>
          unfold traceLinkSource
          dsimp only
          rw [hlk]
          dsimp only
          rw [hty]
          simp
  | hop x rest flds ifs kv k target hlk hty hpass hinputs hfind hrec ih =>
      intro d hd
      cases d with
      | zero => omega
      | succ d' =>
          unfold traceLinkSource
          dsimp only
          rw [hlk]
          dsimp only
          rw [hty, hpass]
          simp only [Bool.false_eq_true, if_false, if_true]
          rw [hinputs]
          dsimp only
          rw [hfind]
          exact ih d' (by omega)

theorem trace_of_chain_exhausted (g : Obj) (tys : List String) (ref : Value)
    (k : Nat) (target : String) (hchain : PassChainTo g tys ref k target) :
    ∀ d : Nat, d ≤ k → traceLinkSource g tys d ref = .ok none := by
  induction hchain with
  | found x rest flds hlk hty =>
      intro d hd
      have : d = 0 := by omega
      subst this
      rfl
  | hop x rest flds ifs kv k target hlk hty hpass hinputs hfind hrec ih =>
      intro d hd
      cases d with
      | zero => rfl
      | succ d' =>
          unfold traceLinkSource
          dsimp only
          rw [hlk]
          dsimp only
          rw [hty, hpass]
          simp only [Bool.false_eq_true, if_false, if_true]
          rw [hinputs]
          dsimp only
          rw [hfind]
          exact ih d' (by omega)

/-! ## Stability of an assigned positive node through the later phases -/

theorem classifyByTitle_pos_stable (m : WorkflowNodeMapping) (nid : String)
    (nd : Value) (m' : WorkflowNodeMapping)
    (htr : optStrTruthy m.positive_prompt_node = true)
    (h : classifyByTitle m nid nd = .ok m') :
    m'.positive_prompt_node = m.positive_prompt_node := by
  unfold classifyByTitle at h
  by_cases ha : assignedTo m nid = true
  · simp only [ha, if_true, exceptPure] at h
    cases h
    rfl
  · simp only [ha, Bool.false_eq_true, if_false] at h
    cases hm : pyGet nd "_meta" (.obj []) with
    | error e => rw [hm] at h; exact absurd h (by simp [exceptBind_error])
    | ok meta =>
        rw [hm, exceptBind_ok] at h
        cases ht : pyGet meta "title" (.str "") with
        | error e => rw [ht] at h; exact absurd h (by simp [exceptBind_error])
        | ok titleV =>
            rw [ht, exceptBind_ok] at h
            cases titleV with
            | str s =>
                simp only [exceptBind_ok, exceptPure] at h
                by_cases hneg : (!(optStrTruthy m.negative_prompt_node) &&
                    (strContains (strToLower s) "negative" ||
                     strContains (strToLower s) "负")) = true
                · simp only [hneg, if_true, exceptPure] at h
                  cases h
                  rfl
                · simp only [hneg, Bool.false_eq_true, if_false] at h
                  simp only [htr, Bool.not_true, Bool.false_and,
                    Bool.false_eq_true, if_false, exceptPure] at h
                  cases h
                  rfl
            | null => exact absurd h (by simp [exceptBind_error])
            | bool b => exact absurd h (by simp [exceptBind_error])
            | int n => exact absurd h (by simp [exceptBind_error])
            | list xs => exact absurd h (by simp [exceptBind_error])
            | obj fs => exact absurd h (by simp [exceptBind_error])

theorem classifyByText_pos_stable (m : WorkflowNodeMapping) (nid : String)
    (nd : Value) (m' : WorkflowNodeMapping)
    (htr : optStrTruthy m.positive_prompt_node = true)
    (h : classifyByText m nid nd = .ok m') :
    m'.positive_prompt_node = m.positive_prompt_node := by
  unfold classifyByText at h
  by_cases ha : assignedTo m nid = true
  · simp only [ha, if_true, exceptPure] at h
    cases h
    rfl
  · simp only [ha, Bool.false_eq_true, if_false] at h
    cases hm : pyGet nd "inputs" (.obj []) with
    | error e => rw [hm] at h; exact absurd h (by simp [exceptBind_error])
    | ok inputsV =>
        rw [hm, exceptBind_ok] at h
        cases ht : pyGet inputsV "text" (.str "") with
        | error e => rw [ht] at h; exact absurd h (by simp [exceptBind_error])
        | ok textV =>
            rw [ht, exceptBind_ok] at h
            cases textV with
            | str s =>
                simp only [exceptBind_ok, exceptPure] at h
                by_cases hneg : (!(optStrTruthy m.negative_prompt_node) &&
                    negative_keywords.any
                      (fun kw => strContains (strToLower s) kw)) = true
                · simp only [hneg, if_true, exceptPure] at h
                  cases h
                  rfl
                · simp only [hneg, Bool.false_eq_true, if_false] at h
                  simp only [htr, Bool.not_true, Bool.false_and,
                    Bool.false_eq_true, if_false, exceptPure] at h
                  cases h
                  rfl
            | null => exact absurd h (by simp [exceptBind_error])
            | bool b => exact absurd h (by simp [exceptBind_error])
            | int n => exact absurd h (by simp [exceptBind_error])
            | list xs => exact absurd h (by simp [exceptBind_error])
            | obj fs => exact absurd h (by simp [exceptBind_error])

theorem classifyByOrder_pos_stable (m : WorkflowNodeMapping) (nid : String)
    (htr : optStrTruthy m.positive_prompt_node = true) :
    (classifyByOrder m nid).positive_prompt_node = m.positive_prompt_node := by
  unfold classifyByOrder
  by_cases ha : assignedTo m nid = true
  · simp [ha]
  · by_cases hn : optStrTruthy m.negative_prompt_node = true <;>
      simp [ha, htr, hn]

theorem foldTitle_pos_stable (clips : List (String × Value)) :
    ∀ (m m' : WorkflowNodeMapping),
      optStrTruthy m.positive_prompt_node = true →
      List.foldlM (fun m kv => classifyByTitle m kv.1 kv.2) m clips = .ok m' →
      m'.positive_prompt_node = m.positive_prompt_node := by
  induction clips with
  | nil =>
      intro m m' _ h
      rw [List.foldlM_nil, exceptPure] at h
      cases h
      rfl
  | cons kv rest ih =>
      intro m m' htr h
      rw [List.foldlM_cons] at h
      cases hs : classifyByTitle m kv.1 kv.2 with
      | error e => rw [hs] at h; exact absurd h (by simp [exceptBind_error])
      | ok m1 =>
          rw [hs, exceptBind_ok] at h
          have h1 := classifyByTitle_pos_stable m kv.1 kv.2 m1 htr hs
          have h2 := ih m1 m' (by rw [h1]; exact htr) h
          rw [h2, h1]

theorem foldText_pos_stable (clips : List (String × Value)) :
    ∀ (m m' : WorkflowNodeMapping),
      optStrTruthy m.positive_prompt_node = true →
      List.foldlM (fun m kv => classifyByText m kv.1 kv.2) m clips = .ok m' →
      m'.positive_prompt_node = m.positive_prompt_node := by
  induction clips with
  | nil =>
      intro m m' _ h
      rw [List.foldlM_nil, exceptPure] at h
      cases h
      rfl
  | cons kv rest ih =>
      intro m m' htr h
      rw [List.foldlM_cons] at h
      cases hs : classifyByText m kv.1 kv.2 with
      | error e => rw [hs] at h; exact absurd h (by simp [exceptBind_error])
      | ok m1 =>
          rw [hs, exceptBind_ok] at h
          have h1 := classifyByText_pos_stable m kv.1 kv.2 m1 htr hs
          have h2 := ih m1 m' (by rw [h1]; exact htr) h
          rw [h2, h1]

theorem foldOrder_pos_stable (clips : List (String × Value)) :
    ∀ m : WorkflowNodeMapping, optStrTruthy m.positive_prompt_node = true →
      (clips.foldl (fun m kv => classifyByOrder m kv.1) m).positive_prompt_node
        = m.positive_prompt_node := by
  induction clips with
  | nil => intro m _; rfl
  | cons kv rest ih =>
      intro m htr
      rw [List.foldl_cons]
      have h1 := classifyByOrder_pos_stable m kv.1 htr
      have h2 := ih (classifyByOrder m kv.1) (by rw [h1]; exact htr)
      rw [h2, h1]

/-! ## Claim C6 — passthrough-chain resolution and the depth bound -/

/-- C6 (amended): with the default depth bound of 10, a link whose source
chain crosses `k ≤ 9` passthrough nodes resolves to the first
non-passthrough node; a chain of `k ≥ 10` passthrough nodes — including one
of exactly 10, which the claim said still resolves — makes the trace return
none; and whenever the sampler reference's immediate source is itself a
prompt-encode candidate, classification assigns it (the tracer returns the
immediate source at depth 10 ≥ 1, so the direct-source fallback never has
to fire for such a source). -/
theorem claim6_trace_chain_behaviour :
    (∀ (g : Obj) (tys : List String) (ref : Value) (k : Nat) (target : String),
      PassChainTo g tys ref k target → k ≤ 9 →
      traceLinkSource g tys 10 ref = .ok (some target)) ∧
    (∀ (g : Obj) (tys : List String) (ref : Value) (k : Nat) (target : String),
      PassChainTo g tys ref k target → 10 ≤ k →
      traceLinkSource g tys 10 ref = .ok none) ∧
    (∀ (g : Obj) (c1 c2 : String × Value) (rest : List (String × Value))
      (m m' : WorkflowNodeMapping) (sid : String) (sflds sIns : Obj)
      (x : Value) (xr : List Value) (cid : String) (cflds : Obj),
      m.sampler_node = some sid → sid ≠ "" → Obj.hasKey g sid = true →
      Obj.getD g sid .null = .obj sflds →
      Obj.getD sflds "inputs" (.obj []) = .obj sIns →
      Obj.getD sIns "positive" (.list []) = .list (x :: xr) →
      pyStr x = cid → cid ≠ "" →
      cid ∈ (c1 :: c2 :: rest).map Prod.fst →
      Obj.lookup g cid = some (.obj cflds) →
      (Obj.getD cflds "class_type" (.str "")).inStrList
        CLIP_TEXT_ENCODE_TYPES = true →
      classifyClipNodes (c1 :: c2 :: rest) m g = .ok m' →
      m'.positive_prompt_node = some cid) := by
  refine ⟨?_, ?_, ?_⟩
  · intro g tys ref k target hchain hk
    exact trace_of_chain g tys ref k target hchain 10 (by omega)
  · intro g tys ref k target hchain hk
    exact trace_of_chain_exhausted g tys ref k target hchain 10 hk
  · intro g c1 c2 rest m m' sid sflds sIns x xr cid cflds
      hsid hne hhas hnode hins hpos hx hcidne hmem hclk hccls hok
    have hmem' : ((c1 :: c2 :: rest).map Prod.fst).contains cid = true := by
      simp only [List.contains_iff_exists_mem_beq]
      exact ⟨cid, hmem, by simp⟩
    have htr10 : traceLinkSource g CLIP_TEXT_ENCODE_TYPES 10
        (.list (x :: xr)) = .ok (some cid) := by
      unfold traceLinkSource
      dsimp only
      rw [hx, hclk]
      dsimp only
      rw [hccls]
      simp
    have hcfr : classifyFromRef g ((c1 :: c2 :: rest).map Prod.fst)
        (.list (x :: xr)) = .ok (some cid) := by
      unfold classifyFromRef
      dsimp only
      rw [htr10, exceptBind_ok]
      have hcnd : (decide (cid ≠ "") &&
          ((c1 :: c2 :: rest).map Prod.fst).contains cid) = true := by
        rw [hmem']
        simp [hcidne]
      dsimp only
      rw [if_pos hcnd]
      rfl
    unfold classifyClipNodes at hok
    dsimp only at hok
    rw [hsid] at hok
    dsimp only at hok
    have hcond : (decide ¬sid = "" && Obj.hasKey g sid) = true := by
      simp [hne, hhas]
    rw [hcond] at hok
    simp only [if_true] at hok
    rw [hnode] at hok
    simp only [pyGet, exceptBind_ok] at hok
    rw [hins] at hok
    simp only [pyGet, exceptBind_ok] at hok
    rw [hpos] at hok
    rw [hcfr, exceptBind_ok] at hok
    dsimp only at hok
    cases hneg : classifyFromRef g ((c1 :: c2 :: rest).map Prod.fst)
        (Obj.getD sIns "negative" (.list [])) with
    | error e => rw [hneg] at hok; exact absurd hok (by simp [exceptBind_error])
    | ok na =>
        rw [hneg, exceptBind_ok] at hok
        simp only [exceptPure, exceptBind_ok] at hok
        have hm2 : ∀ m2 : WorkflowNodeMapping,
            m2.positive_prompt_node = some cid →
            (if optStrTruthy m2.positive_prompt_node &&
                optStrTruthy m2.negative_prompt_node then
              (pure m2 : Except PyErr WorkflowNodeMapping)
            else do
              let ma ← (c1 :: c2 :: rest).foldlM
                (fun m kv => classifyByTitle m kv.1 kv.2) m2
              let mb ← (c1 :: c2 :: rest).foldlM
                (fun m kv => classifyByText m kv.1 kv.2) ma
              pure ((c1 :: c2 :: rest).foldl
                (fun m kv => classifyByOrder m kv.1) mb)) = .ok m' →
            m'.positive_prompt_node = some cid := by
          intro m2 hp2 hrest
          have htr2 : optStrTruthy m2.positive_prompt_node = true := by
            rw [hp2]
            simp [optStrTruthy, hcidne]
          by_cases hb : (optStrTruthy m2.positive_prompt_node &&
              optStrTruthy m2.negative_prompt_node) = true
          · rw [if_pos hb, exceptPure] at hrest
            cases hrest
            exact hp2
          · rw [if_neg hb] at hrest
            cases hfa : (c1 :: c2 :: rest).foldlM
                (fun m kv => classifyByTitle m kv.1 kv.2) m2 with
            | error e =>
                rw [hfa] at hrest
                exact absurd hrest (by simp [exceptBind_error])
            | ok ma =>
                rw [hfa, exceptBind_ok] at hrest
                have hpa := foldTitle_pos_stable (c1 :: c2 :: rest) m2 ma
                  htr2 hfa
                cases hfb : (c1 :: c2 :: rest).foldlM
                    (fun m kv => classifyByText m kv.1 kv.2) ma with
                | error e =>
                    rw [hfb] at hrest
                    exact absurd hrest (by simp [exceptBind_error])
                | ok mb =>
                    rw [hfb, exceptBind_ok, exceptPure] at hrest
                    have hpb := foldText_pos_stable (c1 :: c2 :: rest) ma mb
                      (by rw [hpa]; exact htr2) hfb
                    have hpc := foldOrder_pos_stable (c1 :: c2 :: rest) mb
                      (by rw [hpb, hpa]; exact htr2)
                    cases hrest
                    rw [hpc, hpb, hpa, hp2]
        cases na with
        | none => exact hm2 _ rfl hok
        | some nid => exact hm2 _ rfl hok

/-- C6 (counterexample): a chain of exactly ten passthrough nodes — "length
at most 10", which the claim says still resolves — already exhausts the
default depth bound: the trace returns none instead of the chain's final
prompt-encode node `"11"`. -/
theorem claim6_counterexample :
    traceLinkSource chainGraphTen CLIP_TEXT_ENCODE_TYPES 10
      (.list [.str "1", .int 0]) = .ok none := by rfl

/-- Witness for C6: the amended theorem applied to a nine-hop sub-chain of
the same graph (which resolves to `"11"`), to the full ten-hop chain (which
returns none), and to a concrete two-prompt graph whose sampler feeds
directly from candidate `"6"`. -/
theorem claim6_witness :
    traceLinkSource chainGraphTen CLIP_TEXT_ENCODE_TYPES 10
      (.list [.str "2", .int 0]) = .ok (some "11") ∧
    traceLinkSource chainGraphTen CLIP_TEXT_ENCODE_TYPES 10
      (.list [.str "1", .int 0]) = .ok none ∧
    ({ positive_prompt_node := some "6", negative_prompt_node := some "7",
       sampler_node := some "3" } : WorkflowNodeMapping).positive_prompt_node
      = some "6" := by
  have chain9 : PassChainTo chainGraphTen CLIP_TEXT_ENCODE_TYPES
      (.list [.str "2", .int 0]) 9 "11" := by
    refine .hop _ _ _ _ _ _ _ rfl rfl rfl rfl rfl ?_
    refine .hop _ _ _ _ _ _ _ rfl rfl rfl rfl rfl ?_
    refine .hop _ _ _ _ _ _ _ rfl rfl rfl rfl rfl ?_
    refine .hop _ _ _ _ _ _ _ rfl rfl rfl rfl rfl ?_
    refine .hop _ _ _ _ _ _ _ rfl rfl rfl rfl rfl ?_
    refine .hop _ _ _ _ _ _ _ rfl rfl rfl rfl rfl ?_
    refine .hop _ _ _ _ _ _ _ rfl rfl rfl rfl rfl ?_
    refine .hop _ _ _ _ _ _ _ rfl rfl rfl rfl rfl ?_
    refine .hop _ _ _ _ _ _ _ rfl rfl rfl rfl rfl ?_
    exact .found _ _ _ rfl rfl
  have chain10 : PassChainTo chainGraphTen CLIP_TEXT_ENCODE_TYPES
      (.list [.str "1", .int 0]) 10 "11" := by
    refine .hop _ _ _ _ _ _ _ rfl rfl rfl rfl rfl ?_
    exact chain9
  refine ⟨claim6_trace_chain_behaviour.1 chainGraphTen CLIP_TEXT_ENCODE_TYPES
      _ 9 "11" chain9 (by omega),
    claim6_trace_chain_behaviour.2.1 chainGraphTen CLIP_TEXT_ENCODE_TYPES
      _ 10 "11" chain10 (by omega), ?_⟩
  exact claim6_trace_chain_behaviour.2.2
    [("3", .obj [("class_type", .str "KSampler"),
       ("inputs", .obj [("positive", .list [.str "6", .int 0]),
                        ("negative", .list [.str "7", .int 0])])]),
     ("6", .obj [("class_type", .str "CLIPTextEncode"),
       ("inputs", .obj [("text", .str "a cat")])]),
     ("7", .obj [("class_type", .str "CLIPTextEncode"),
       ("inputs", .obj [("text", .str "blurry")])])]
    ("6", .obj [("class_type", .str "CLIPTextEncode"),
       ("inputs", .obj [("text", .str "a cat")])])
    ("7", .obj [("class_type", .str "CLIPTextEncode"),
       ("inputs", .obj [("text", .str "blurry")])])
    [] { sampler_node := some "3", sampler_nodes := ["3"] }
    { positive_prompt_node := some "6", negative_prompt_node := some "7",
      sampler_node := some "3", sampler_nodes := ["3"] }
    "3" _ _ (.str "6") [.int 0] "6" _
    rfl (by decide) rfl rfl rfl rfl rfl (by decide) (by decide) rfl rfl rfl

/-! ## Lemmas for the preparation pipeline -/

theorem Obj.hasKey_iff_mem_keys (o : Obj) (k : String) :
    Obj.hasKey o k = true ↔ k ∈ Obj.keys o := by
  constructor
  · intro h
    simp only [Obj.hasKey, Option.isSome_iff_exists] at h
    obtain ⟨v, hv⟩ := h
    have := Obj.lookup_mem o k v hv
    exact List.mem_map.2 ⟨(k, v), this, rfl⟩
  · intro h
    obtain ⟨v, hv⟩ := Obj.lookup_isSome_of_mem_keys o k h
    simp [Obj.hasKey, hv]

theorem setNodeInputField_ok (g : Obj) (nid f : String) (v : Value) (g' : Obj)
    (h : setNodeInputField g nid f v = (g', none)) :
    ∃ nflds iflds,
      Obj.lookup g nid = some (.obj nflds) ∧
      Obj.lookup nflds "inputs" = some (.obj iflds) ∧
      g' = Obj.set g nid (.obj (Obj.set nflds "inputs"
        (.obj (Obj.set iflds f v)))) := by
  unfold setNodeInputField at h
  cases hlk : Obj.lookup g nid with
  | none => rw [hlk] at h; exact absurd h (by simp)
  | some node =>
      rw [hlk] at h
      cases node with
      | obj nflds =>
          simp only [Value.subscriptStr] at h
          cases hin : Obj.lookup nflds "inputs" with
          | none => rw [hin] at h; exact absurd h (by simp)
          | some inputsV =>
              rw [hin] at h
              cases inputsV with
              | obj iflds =>
                  simp only [Value.setItemStr] at h
                  cases h
                  exact ⟨nflds, iflds, rfl, hin, rfl⟩
              | null => exact absurd h (by simp [Value.setItemStr])
              | bool b => exact absurd h (by simp [Value.setItemStr])
              | int n => exact absurd h (by simp [Value.setItemStr])
              | str s => exact absurd h (by simp [Value.setItemStr])
              | list xs => exact absurd h (by simp [Value.setItemStr])
      | null => exact absurd h (by simp [Value.subscriptStr])
      | bool b => exact absurd h (by simp [Value.subscriptStr])
      | int n => exact absurd h (by simp [Value.subscriptStr])
      | str s => exact absurd h (by simp [Value.subscriptStr])
      | list xs => exact absurd h (by simp [Value.subscriptStr])

theorem setNodeInputField_ok_keys (g : Obj) (nid f : String) (v : Value)
    (g' : Obj) (h : setNodeInputField g nid f v = (g', none)) :
    Obj.keys g' = Obj.keys g := by
  obtain ⟨nflds, iflds, hlk, hin, hg⟩ := setNodeInputField_ok g nid f v g' h
  subst hg
  exact Obj.keys_set_of_hasKey g nid _ (by simp [Obj.hasKey, hlk])

theorem setNodeInputField_ok_seed_write (g : Obj) (sid : String) (S : Int)
    (g' : Obj) (h : setNodeInputField g sid "seed" (.int S) = (g', none)) :
    seedOfNode g' sid = some (.int S) ∧
    ∀ s ≠ sid, seedOfNode g' s = seedOfNode g s := by
  obtain ⟨nflds, iflds, hlk, hin, hg⟩ :=
    setNodeInputField_ok g sid "seed" (.int S) g' h
  subst hg
  constructor
  · simp [seedOfNode, Obj.lookup_set_self]
  · intro s hs
    simp [seedOfNode, Obj.lookup_set_ne g sid s _ hs]

theorem setNodeInputField_ok_seed_other (g : Obj) (nid f : String) (v : Value)
    (g' : Obj) (hf : f ≠ "seed")
    (h : setNodeInputField g nid f v = (g', none)) :
    ∀ s, seedOfNode g' s = seedOfNode g s := by
  obtain ⟨nflds, iflds, hlk, hin, hg⟩ := setNodeInputField_ok g nid f v g' h
  subst hg
  intro s
  by_cases hs : s = nid
  · subst hs
    simp [seedOfNode, Obj.lookup_set_self, hlk, hin,
      Obj.lookup_set_ne iflds f "seed" v (Ne.symm hf)]
  · simp [seedOfNode, Obj.lookup_set_ne g nid s _ hs]

theorem setSamplerSeeds_ok (S : Int) :
    ∀ (ks : List String) (g g' : Obj),
      setSamplerSeeds S ks g = (g', none) →
      (∀ sid, seedOfNode g sid = some (.int S) →
        seedOfNode g' sid = some (.int S)) ∧
      (∀ sid ∈ ks, Obj.hasKey g sid = true →
        seedOfNode g' sid = some (.int S)) ∧
      Obj.keys g' = Obj.keys g := by
  intro ks
  induction ks with
  | nil =>
      intro g g' h
      unfold setSamplerSeeds at h
      cases h
      exact ⟨fun _ h => h, fun sid h => by simp at h, rfl⟩
  | cons sid rest ih =>
      intro g g' h
      unfold setSamplerSeeds at h
      by_cases hk : Obj.hasKey g sid = true
      · rw [if_pos hk] at h
        dsimp only at h
        cases hc : pyContains "inputs" (Obj.getD g sid .null) with
        | error e => rw [hc] at h; exact absurd h (by simp)
        | ok b =>
            rw [hc] at h
            dsimp only at h
            have key : ∀ g₁ : Obj, Obj.keys g₁ = Obj.keys g →
                (∀ s, seedOfNode g₁ s = seedOfNode g s ∨
                  (s = sid ∧ seedOfNode g s = none)) →
                (match setNodeInputField g₁ sid "seed" (.int S) with
                  | (g'', some e) => (g'', some e)
                  | (g'', none) => setSamplerSeeds S rest g'') = (g', none) →
                (∀ s, seedOfNode g s = some (.int S) →
                  seedOfNode g' s = some (.int S)) ∧
                (∀ s ∈ sid :: rest, Obj.hasKey g s = true →
                  seedOfNode g' s = some (.int S)) ∧
                Obj.keys g' = Obj.keys g := by
              intro g₁ hkeys hpres hm
              cases hset : setNodeInputField g₁ sid "seed" (.int S) with
              | mk g₂ err =>
                  cases err with
                  | some e => rw [hset] at hm; exact absurd hm (by simp)
                  | none =>
                      rw [hset] at hm
                      dsimp only at hm
                      obtain ⟨hw, hother⟩ :=
                        setNodeInputField_ok_seed_write g₁ sid S g₂ hset
                      have hk2 := setNodeInputField_ok_keys g₁ sid "seed"
                        (.int S) g₂ hset
                      obtain ⟨ih1, ih2, ih3⟩ := ih g₂ g' hm
                      refine ⟨?_, ?_, by rw [ih3, hk2, hkeys]⟩
                      · intro s hs
                        by_cases hssid : s = sid
                        · subst hssid
                          exact ih1 s hw
                        · rcases hpres s with hp | ⟨hp, _⟩
                          · exact ih1 s (by rw [hother s hssid, hp]; exact hs)
                          · exact absurd hp hssid
                      · intro s hsmem hhk
                        rcases List.mem_cons.1 hsmem with hs | hs
                        · subst hs
                          exact ih1 s hw
                        · by_cases hssid : s = sid
                          · subst hssid
                            exact ih1 s hw
                          · refine ih2 s hs ?_
                            have : s ∈ Obj.keys g₂ := by
                              rw [hk2, hkeys]
                              exact (Obj.hasKey_iff_mem_keys g s).1 hhk
                            exact (Obj.hasKey_iff_mem_keys g₂ s).2 this
            cases b with
            | true =>
                simp only [Bool.not_true, Bool.false_eq_true, if_false] at h
                exact key g rfl (fun s => Or.inl rfl) h
            | false =>
                simp only [Bool.not_false, if_true] at h
                cases hnode : Obj.getD g sid .null with
                | obj nflds =>
                    rw [hnode] at h
                    simp only [Value.setItemStr] at h
                    have hnoin : Obj.lookup nflds "inputs" = none := by
                      rw [hnode] at hc
                      simp only [pyContains, Except.ok.injEq, Obj.hasKey] at hc
                      exact Option.not_isSome_iff_eq_none.1 (by simp [hc])
                    refine key (Obj.set g sid
                      (.obj (Obj.set nflds "inputs" (.obj [])))) ?_ ?_ h
                    · refine Obj.keys_set_of_hasKey g sid _ hk
                    · intro s
                      by_cases hssid : s = sid
                      · subst hssid
                        right
                        refine ⟨rfl, ?_⟩
                        have h2 := hk
                        simp only [Obj.hasKey, Option.isSome_iff_exists] at h2
                        obtain ⟨v, hv0⟩ := h2
                        have hveq : v = .obj nflds := by
                          rw [← hnode]
                          simp [Obj.getD, hv0]
                        rw [hveq] at hv0
                        simp [seedOfNode, hv0, hnoin]
                      · left
                        simp [seedOfNode, Obj.lookup_set_ne g sid s _ hssid]
                | null =>
                    rw [hnode] at h
                    simp only [Value.setItemStr] at h
                    exact absurd h (by simp)
                | bool bb =>
                    rw [hnode] at h
                    simp only [Value.setItemStr] at h
                    exact absurd h (by simp)
                | int n =>
                    rw [hnode] at h
                    simp only [Value.setItemStr] at h
                    exact absurd h (by simp)
                | str s =>
                    rw [hnode] at h
                    simp only [Value.setItemStr] at h
                    exact absurd h (by simp)
                | list xs =>
                    rw [hnode] at h
                    simp only [Value.setItemStr] at h
                    exact absurd h (by simp)
      · rw [if_neg hk] at h
        obtain ⟨ih1, ih2, ih3⟩ := ih g g' h
        refine ⟨ih1, ?_, ih3⟩
        intro s hsmem hhk
        rcases List.mem_cons.1 hsmem with hs | hs
        · subst hs
          exact absurd hhk hk
        · exact ih2 s hs hhk

theorem optFieldStep_ok_keys (g : Obj) (onode : Option String) (fld : String)
    (v : Value) (g' : Obj) (h : optFieldStep g onode fld v = (g', none)) :
    Obj.keys g' = Obj.keys g := by
  unfold optFieldStep at h
  cases onode with
  | none => cases h; rfl
  | some p =>
      dsimp only at h
      by_cases hc : (decide ¬p = "" && Obj.hasKey g p) = true
      · rw [if_pos hc] at h
        exact setNodeInputField_ok_keys g p fld v g' h
      · rw [if_neg hc] at h
        cases h
        rfl

/-- Appending a sampler id happens only for the entry's own id. -/
theorem analyzeNode_sampler_sub (a : WorkflowNodeMapping × List (String × Value))
    (e : String × Value) (s : String)
    (h : s ∈ (analyzeNode a e).1.sampler_nodes) :
    s ∈ a.1.sampler_nodes ∨ s = e.1 := by
  obtain ⟨m, clips⟩ := a
  obtain ⟨nid, nd⟩ := e
  unfold analyzeNode at h
  cases nd with
  | obj fields =>
      dsimp only at h
      generalize hm1 : (if (Obj.getD fields "class_type"
          (Value.str "")).inStrList TRT_LOADER_TYPES = true
        then { m with has_tensorrt := true } else m) = m1 at h
      have hs1 : m1.sampler_nodes = m.sampler_nodes := by
        rw [← hm1]
        by_cases hT : (Obj.getD fields "class_type"
            (Value.str "")).inStrList TRT_LOADER_TYPES = true <;> simp [hT]
      repeat' split at h
      all_goals simp only at h
      all_goals
        first
        | (left
           rw [← hs1]
           simpa using h)
        | (rcases List.mem_append.1 (by simpa using h :
              s ∈ m1.sampler_nodes ++ [nid]) with h2 | h2
           · left
             rw [← hs1]
             exact h2
           · right
             simpa using h2)
  | null => left; exact h
  | bool b => left; exact h
  | int n => left; exact h
  | str ss => left; exact h
  | list xs => left; exact h

theorem analyzeFold_sampler_hasKey :
    ∀ (g : List (String × Value))
      (acc : WorkflowNodeMapping × List (String × Value)),
      ∀ sid ∈ (g.foldl analyzeNode acc).1.sampler_nodes,
        sid ∈ acc.1.sampler_nodes ∨ Obj.hasKey g sid = true := by
  intro g
  induction g with
  | nil =>
      intro acc sid h
      left
      exact h
  | cons kn rest ih =>
      intro acc sid h
      rw [List.foldl_cons] at h
      rcases ih (analyzeNode acc kn) sid h with h' | h'
      · rcases analyzeNode_sampler_sub acc kn sid h' with h2 | h2
        · left
          exact h2
        · right
          subst h2
          obtain ⟨k, v⟩ := kn
          simp [Obj.hasKey, Obj.lookup]
      · right
        obtain ⟨k, v⟩ := kn
        by_cases hk : k = sid
        · simp [Obj.hasKey, Obj.lookup, hk]
        · simp only [Obj.hasKey, Obj.lookup, hk, if_false] at h' ⊢
          simpa [hk] using h'

theorem classifyByTitle_sampler_stable (m : WorkflowNodeMapping)
    (nid : String) (nd : Value) (m' : WorkflowNodeMapping)
    (h : classifyByTitle m nid nd = .ok m') :
    m'.sampler_nodes = m.sampler_nodes := by
  unfold classifyByTitle at h
  by_cases ha : assignedTo m nid = true
  · simp only [ha, if_true, exceptPure] at h
    cases h
    rfl
  · simp only [ha, Bool.false_eq_true, if_false] at h
    cases hm : pyGet nd "_meta" (.obj []) with
    | error e => rw [hm] at h; exact absurd h (by simp [exceptBind_error])
    | ok meta =>
        rw [hm, exceptBind_ok] at h
        cases ht : pyGet meta "title" (.str "") with
        | error e => rw [ht] at h; exact absurd h (by simp [exceptBind_error])
        | ok titleV =>
            rw [ht, exceptBind_ok] at h
            cases titleV with
            | str s =>
                simp only [exceptBind_ok, exceptPure] at h
                split at h <;> (try split at h) <;>
                  (cases h; rfl)
            | null => exact absurd h (by simp [exceptBind_error])
            | bool b => exact absurd h (by simp [exceptBind_error])
            | int n => exact absurd h (by simp [exceptBind_error])
            | list xs => exact absurd h (by simp [exceptBind_error])
            | obj fs => exact absurd h (by simp [exceptBind_error])

theorem classifyByText_sampler_stable (m : WorkflowNodeMapping)
    (nid : String) (nd : Value) (m' : WorkflowNodeMapping)
    (h : classifyByText m nid nd = .ok m') :
    m'.sampler_nodes = m.sampler_nodes := by
  unfold classifyByText at h
  by_cases ha : assignedTo m nid = true
  · simp only [ha, if_true, exceptPure] at h
    cases h
    rfl
  · simp only [ha, Bool.false_eq_true, if_false] at h
    cases hm : pyGet nd "inputs" (.obj []) with
    | error e => rw [hm] at h; exact absurd h (by simp [exceptBind_error])
    | ok inputsV =>
        rw [hm, exceptBind_ok] at h
        cases ht : pyGet inputsV "text" (.str "") with
        | error e => rw [ht] at h; exact absurd h (by simp [exceptBind_error])
        | ok textV =>
            rw [ht, exceptBind_ok] at h
            cases textV with
            | str s =>
                simp only [exceptBind_ok, exceptPure] at h
                split at h <;> (try split at h) <;>
                  (cases h; rfl)
            | null => exact absurd h (by simp [exceptBind_error])
            | bool b => exact absurd h (by simp [exceptBind_error])
            | int n => exact absurd h (by simp [exceptBind_error])
            | list xs => exact absurd h (by simp [exceptBind_error])
            | obj fs => exact absurd h (by simp [exceptBind_error])

theorem classifyByOrder_sampler_stable (m : WorkflowNodeMapping)
    (nid : String) :
    (classifyByOrder m nid).sampler_nodes = m.sampler_nodes := by
  unfold classifyByOrder
  repeat' split
  all_goals rfl

theorem foldTitle_sampler_stable (clips : List (String × Value)) :
    ∀ (m m' : WorkflowNodeMapping),
      List.foldlM (fun m kv => classifyByTitle m kv.1 kv.2) m clips = .ok m' →
      m'.sampler_nodes = m.sampler_nodes := by
  induction clips with
  | nil =>
      intro m m' h
      rw [List.foldlM_nil, exceptPure] at h
      cases h
      rfl
  | cons kv rest ih =>
      intro m m' h
      rw [List.foldlM_cons] at h
      cases hs : classifyByTitle m kv.1 kv.2 with
      | error e => rw [hs] at h; exact absurd h (by simp [exceptBind_error])
      | ok m1 =>
          rw [hs, exceptBind_ok] at h
          rw [ih m1 m' h, classifyByTitle_sampler_stable m kv.1 kv.2 m1 hs]

theorem foldText_sampler_stable (clips : List (String × Value)) :
    ∀ (m m' : WorkflowNodeMapping),
      List.foldlM (fun m kv => classifyByText m kv.1 kv.2) m clips = .ok m' →
      m'.sampler_nodes = m.sampler_nodes := by
  induction clips with
  | nil =>
      intro m m' h
      rw [List.foldlM_nil, exceptPure] at h
      cases h
      rfl
  | cons kv rest ih =>
      intro m m' h
      rw [List.foldlM_cons] at h
      cases hs : classifyByText m kv.1 kv.2 with
      | error e => rw [hs] at h; exact absurd h (by simp [exceptBind_error])
      | ok m1 =>
          rw [hs, exceptBind_ok] at h
          rw [ih m1 m' h, classifyByText_sampler_stable m kv.1 kv.2 m1 hs]

theorem foldOrder_sampler_stable (clips : List (String × Value)) :
    ∀ m : WorkflowNodeMapping,
      (clips.foldl (fun m kv => classifyByOrder m kv.1) m).sampler_nodes
        = m.sampler_nodes := by
  induction clips with
  | nil => intro m; rfl
  | cons kv rest ih =>
      intro m
      rw [List.foldl_cons, ih, classifyByOrder_sampler_stable]

theorem classifyClipNodes_sampler_stable (clips : List (String × Value))
    (m m' : WorkflowNodeMapping) (g : Obj)
    (h : classifyClipNodes clips m g = .ok m') :
    m'.sampler_nodes = m.sampler_nodes := by
  unfold classifyClipNodes at h
  match clips, h with
  | [], h => cases h; rfl
  | [(nid, nd)], h => cases h; rfl
  | c1 :: c2 :: rest, h =>
      dsimp only at h
      have tail : ∀ m2 : WorkflowNodeMapping, m2.sampler_nodes = m.sampler_nodes →
          (if optStrTruthy m2.positive_prompt_node &&
              optStrTruthy m2.negative_prompt_node then
            (pure m2 : Except PyErr WorkflowNodeMapping)
          else do
            let ma ← (c1 :: c2 :: rest).foldlM
              (fun m kv => classifyByTitle m kv.1 kv.2) m2
            let mb ← (c1 :: c2 :: rest).foldlM
              (fun m kv => classifyByText m kv.1 kv.2) ma
            pure ((c1 :: c2 :: rest).foldl
              (fun m kv => classifyByOrder m kv.1) mb)) = .ok m' →
          m'.sampler_nodes = m.sampler_nodes := by
        intro m2 hs2 hrest
        by_cases hb : (optStrTruthy m2.positive_prompt_node &&
            optStrTruthy m2.negative_prompt_node) = true
        · rw [if_pos hb, exceptPure] at hrest
          cases hrest
          exact hs2
        · rw [if_neg hb] at hrest
          cases hfa : (c1 :: c2 :: rest).foldlM
              (fun m kv => classifyByTitle m kv.1 kv.2) m2 with
          | error e =>
              rw [hfa] at hrest
              exact absurd hrest (by simp [exceptBind_error])
          | ok ma =>
              rw [hfa, exceptBind_ok] at hrest
              cases hfb : (c1 :: c2 :: rest).foldlM
                  (fun m kv => classifyByText m kv.1 kv.2) ma with
              | error e =>
                  rw [hfb] at hrest
                  exact absurd hrest (by simp [exceptBind_error])
              | ok mb =>
                  rw [hfb, exceptBind_ok, exceptPure] at hrest
                  cases hrest
                  rw [foldOrder_sampler_stable,
                    foldText_sampler_stable _ _ _ hfb,
                    foldTitle_sampler_stable _ _ _ hfa, hs2]
      cases hsn : m.sampler_node with
      | none =>
          rw [hsn] at h
          simp only [exceptPure, exceptBind_ok] at h
          exact tail m rfl h
      | some sid =>
          rw [hsn] at h
          dsimp only at h
          by_cases hcnd : (decide ¬sid = "" && Obj.hasKey g sid) = true
          · rw [if_pos hcnd] at h
            cases hg1 : pyGet (Obj.getD g sid .null) "inputs" (.obj []) with
            | error e => rw [hg1] at h; exact absurd h (by simp [exceptBind_error])
            | ok samplerInputs =>
                rw [hg1, exceptBind_ok] at h
                cases hg2 : pyGet samplerInputs "positive" (.list []) with
                | error e =>
                    rw [hg2] at h
                    exact absurd h (by simp [exceptBind_error])
                | ok posRef =>
                    rw [hg2, exceptBind_ok] at h
                    cases hg3 : pyGet samplerInputs "negative" (.list []) with
                    | error e =>
                        rw [hg3] at h
                        exact absurd h (by simp [exceptBind_error])
                    | ok negRef =>
                        rw [hg3, exceptBind_ok] at h
                        cases hc1 : classifyFromRef g
                            ((c1 :: c2 :: rest).map Prod.fst) posRef with
                        | error e =>
                            rw [hc1] at h
                            exact absurd h (by simp [exceptBind_error])
                        | ok pa =>
                            rw [hc1, exceptBind_ok] at h
                            cases hc2 : classifyFromRef g
                                ((c1 :: c2 :: rest).map Prod.fst) negRef with
                            | error e =>
                                rw [hc2] at h
                                exact absurd h (by simp [exceptBind_error])
                            | ok na =>
                                rw [hc2, exceptBind_ok] at h
                                simp only [exceptPure, exceptBind_ok] at h
                                cases pa with
                                | none =>
                                    cases na with
                                    | none =>
                                        refine tail _ ?_ h
                                        rfl
                                    | some y =>
                                        refine tail _ ?_ h
                                        rfl
                                | some p =>
                                    cases na with
                                    | none =>
                                        refine tail _ ?_ h
                                        rfl
                                    | some y =>
                                        refine tail _ ?_ h
                                        rfl
          · rw [if_neg hcnd] at h
            simp only [exceptPure, exceptBind_ok] at h
            exact tail m rfl h

theorem seedOfNode_eq_nodeSeedVal (g : Obj) (nid : String) :
    seedOfNode g nid = match Obj.lookup g nid with
      | some n => nodeSeedVal n
      | none => none := by
  unfold seedOfNode nodeSeedVal inputsSeedVal
  cases Obj.lookup g nid with
  | none => rfl
  | some n =>
      cases n with
      | obj fields =>
          dsimp only
          cases Obj.lookup fields "inputs" with
          | none => rfl
          | some iv => cases iv <;> rfl
      | null => rfl
      | bool b => rfl
      | int n => rfl
      | str s => rfl
      | list xs => rfl

theorem processSeedKey_ok_shape (rand : Nat → Int) (ct : Value) (ifs : Obj)
    (st : EnforceState) (key : String) (res : Value × EnforceState)
    (h : processSeedKey rand ct (.obj ifs, st) key = .ok res) :
    res.1 = .obj ifs ∨
    res.1 = .obj (Obj.set ifs key (.int (rand st.ctr))) := by
  unfold processSeedKey at h
  simp only [Value.subscriptStr] at h
  cases hcur : Obj.lookup ifs key with
  | none => rw [hcur] at h; exact absurd h (by simp [exceptBind_error])
  | some cur =>
      rw [hcur] at h
      simp only [exceptBind_ok] at h
      by_cases hrnd : (!cur.isNumber || cur.eqInt (-1)) = true
      · simp only [hrnd, if_true, Value.setItemStr, exceptBind_ok,
          exceptPure] at h
        simp only [Obj.lookup_set_self, exceptBind_ok] at h
        cases hc : pyContains "Sampler" ct with
        | error e => rw [hc] at h; exact absurd h (by simp [exceptBind_error])
        | ok b =>
            rw [hc] at h
            simp only [exceptBind_ok] at h
            right
            cases b with
            | true =>
                simp only [if_true, exceptPure] at h
                cases h
                rfl
            | false =>
                by_cases hm : st.mainSeed.isNone <;>
                  simp only [hm, if_true, if_false, Bool.false_eq_true,
                    exceptPure] at h <;> (cases h; rfl)
      · simp only [hrnd, Bool.false_eq_true, if_false, exceptPure,
          exceptBind_ok] at h
        simp only [Value.subscriptStr, hcur, exceptBind_ok] at h
        cases hc : pyContains "Sampler" ct with
        | error e => rw [hc] at h; exact absurd h (by simp [exceptBind_error])
        | ok b =>
            rw [hc] at h
            simp only [exceptBind_ok] at h
            left
            cases b with
            | true =>
                simp only [if_true, exceptPure] at h
                cases h
                rfl
            | false =>
                by_cases hm : st.mainSeed.isNone <;>
                  simp only [hm, if_true, if_false, Bool.false_eq_true,
                    exceptPure] at h <;> (cases h; rfl)

theorem processSeedKey_preserves_seed (rand : Nat → Int) (ct : Value)
    (inputs : Value) (st : EnforceState) (key : String)
    (res : Value × EnforceState) (S : Int) (hS : S ≠ -1)
    (hseed : inputsSeedVal inputs = some (.int S))
    (h : processSeedKey rand ct (inputs, st) key = .ok res) :
    inputsSeedVal res.1 = some (.int S) := by
  cases inputs with
  | obj ifs =>
      simp only [inputsSeedVal] at hseed
      by_cases hkey : key = "seed"
      · subst hkey
        have hnum : Value.isNumber (.int S) = true := rfl
        have hsent : Value.eqInt (.int S) (-1) = false := by
          simp [Value.eqInt, hS]
        have := processSeedKey_ok_concrete rand ct ifs st "seed" (.int S) res
          hseed hnum hsent h
        rw [this]
        simpa [inputsSeedVal] using hseed
      · rcases processSeedKey_ok_shape rand ct ifs st key res h with hr | hr <;>
          rw [hr]
        · simpa [inputsSeedVal] using hseed
        · simp only [inputsSeedVal]
          rw [Obj.lookup_set_ne ifs key "seed" _ (fun hh => hkey hh.symm)]
          exact hseed
  | null => simp [inputsSeedVal] at hseed
  | bool b => simp [inputsSeedVal] at hseed
  | int n => simp [inputsSeedVal] at hseed
  | str s => simp [inputsSeedVal] at hseed
  | list xs => simp [inputsSeedVal] at hseed

theorem foldProcess_preserves_seed (rand : Nat → Int) (ct : Value)
    (ks : List String) (S : Int) (hS : S ≠ -1) :
    ∀ (inputs : Value) (st : EnforceState) (res : Value × EnforceState),
      inputsSeedVal inputs = some (.int S) →
      List.foldlM (processSeedKey rand ct) (inputs, st) ks = .ok res →
      inputsSeedVal res.1 = some (.int S) := by
  induction ks with
  | nil =>
      intro inputs st res hseed h
      rw [List.foldlM_nil, exceptPure] at h
      cases h
      exact hseed
  | cons k rest ih =>
      intro inputs st res hseed h
      rw [List.foldlM_cons] at h
      cases hstep : processSeedKey rand ct (inputs, st) k with
      | error e => rw [hstep] at h; exact absurd h (by simp [exceptBind_error])
      | ok acc =>
          rw [hstep, exceptBind_ok] at h
          obtain ⟨a1, a2⟩ := acc
          exact ih a1 a2 res
            (processSeedKey_preserves_seed rand ct inputs st k (a1, a2)
              S hS hseed hstep) h

theorem pin_preserves_seed (inputs out : Value) (S : Int)
    (hseed : inputsSeedVal inputs = some (.int S))
    (h : pinControlAfterGenerate inputs = .ok out) :
    inputsSeedVal out = some (.int S) := by
  rcases pin_ok_shape inputs out h with hs | ⟨ifs, hin, hs⟩
  · rw [hs]
    exact hseed
  · subst hin
    rw [hs]
    simp only [inputsSeedVal] at hseed ⊢
    rw [Obj.lookup_set_ne ifs "control_after_generate" "seed" _ (by decide)]
    exact hseed

theorem enforceNode_preserves_seed (rand : Nat → Int) (node : Value)
    (st : EnforceState) (res : Value × EnforceState) (S : Int) (hS : S ≠ -1)
    (hseed : nodeSeedVal node = some (.int S))
    (h : enforceNode rand node st = .ok res) :
    nodeSeedVal res.1 = some (.int S) := by
  cases node with
  | obj fields =>
      unfold enforceNode at h
      dsimp only at h
      cases hlk : Obj.lookup fields "inputs" with
      | none =>
          rw [hlk] at h
          cases h
          exact hseed
      | some inputs =>
          rw [hlk] at h
          dsimp only at h
          simp only [nodeSeedVal, hlk] at hseed
          cases hsk : seedKeysOf inputs with
          | error e => rw [hsk] at h; exact absurd h (by simp [exceptBind_error])
          | ok ks =>
              rw [hsk, exceptBind_ok] at h
              cases hfold : List.foldlM (processSeedKey rand
                  (Obj.getD fields "class_type" (.str ""))) (inputs, st) ks with
              | error e =>
                  rw [hfold] at h
                  exact absurd h (by simp [exceptBind_error])
              | ok acc =>
                  rw [hfold, exceptBind_ok] at h
                  obtain ⟨v1, st1⟩ := acc
                  simp only at h
                  cases hpin : pinControlAfterGenerate v1 with
                  | error e =>
                      rw [hpin] at h
                      exact absurd h (by simp [exceptBind_error])
                  | ok v2 =>
                      rw [hpin, exceptBind_ok] at h
                      cases h
                      have h1 := foldProcess_preserves_seed rand _ ks S hS
                        inputs st (v1, st1) hseed hfold
                      have h2 := pin_preserves_seed v1 v2 S h1 hpin
                      simp [nodeSeedVal, Obj.lookup_set_self, h2]
  | null => simp [nodeSeedVal] at hseed
  | bool b => simp [nodeSeedVal] at hseed
  | int n => simp [nodeSeedVal] at hseed
  | str s => simp [nodeSeedVal] at hseed
  | list xs => simp [nodeSeedVal] at hseed

theorem enforceNodes_preserves_seed (rand : Nat → Int) (S : Int)
    (hS : S ≠ -1) :
    ∀ (g : List (String × Value)) (st : EnforceState)
      (res : List (String × Value) × EnforceState) (sid : String),
      seedOfNode g sid = some (.int S) →
      enforceNodes rand g st = .ok res →
      seedOfNode res.1 sid = some (.int S) := by
  intro g
  induction g with
  | nil =>
      intro st res sid hseed h
      simp [seedOfNode, Obj.lookup] at hseed
  | cons kn rest ih =>
      intro st res sid hseed h
      obtain ⟨k, node⟩ := kn
      unfold enforceNodes at h
      cases hn : enforceNode rand node st with
      | error e => rw [hn] at h; exact absurd h (by simp [exceptBind_error])
      | ok acc =>
          rw [hn, exceptBind_ok] at h
          obtain ⟨n', st1⟩ := acc
          simp only at h
          cases hr : enforceNodes rand rest st1 with
          | error e => rw [hr] at h; exact absurd h (by simp [exceptBind_error])
          | ok acc2 =>
              rw [hr, exceptBind_ok] at h
              obtain ⟨rest', st2⟩ := acc2
              simp only at h
              cases h
              rw [seedOfNode_eq_nodeSeedVal] at hseed ⊢
              by_cases hk : k = sid
              · simp only [Obj.lookup, hk, if_true] at hseed ⊢
                exact enforceNode_preserves_seed rand node st (n', st1) S hS
                  hseed hn
              · simp only [Obj.lookup, hk, if_false] at hseed ⊢
                rw [← seedOfNode_eq_nodeSeedVal] at hseed ⊢
                exact ih st1 (rest', st2) sid hseed hr

theorem enforce_preserves_seed (rand : Nat → Int) (g g' : Obj) (s S : Int)
    (hS : S ≠ -1) (sid : String)
    (hseed : seedOfNode g sid = some (.int S))
    (h : enforceDeterministicWorkflow rand g = .ok (g', s)) :
    seedOfNode g' sid = some (.int S) := by
  unfold enforceDeterministicWorkflow at h
  cases hn : enforceNodes rand g ⟨0, none, none⟩ with
  | error e => rw [hn] at h; exact absurd h (by simp [exceptBind_error])
  | ok res =>
      rw [hn, exceptBind_ok] at h
      obtain ⟨nodes, st⟩ := res
      simp only at h
      cases h
      exact enforceNodes_preserves_seed rand S hS g ⟨0, none, none⟩ _ sid
        hseed hn

theorem applyPrepare_ok_sampler_seeds (m : WorkflowNodeMapping)
    (pos neg : String) (S : Int) (img : Option String) (template gfin : Obj)
    (h : applyPrepare m pos neg S img template = (gfin, none)) :
    ∀ sid ∈ m.sampler_nodes, Obj.hasKey template sid = true →
      seedOfNode gfin sid = some (.int S) := by
  unfold applyPrepare at h
  cases hp : optFieldStep template m.positive_prompt_node
      m.positive_prompt_field (.str pos) with
  | mk g₁ err₁ =>
      rw [hp] at h
      cases err₁ with
      | some e => exact absurd h (by simp)
      | none =>
          dsimp only at h
          have hk1 : Obj.keys g₁ = Obj.keys template :=
            optFieldStep_ok_keys template m.positive_prompt_node
              m.positive_prompt_field (.str pos) g₁ hp
          cases hn : optFieldStep g₁ m.negative_prompt_node
              m.negative_prompt_field (.str neg) with
          | mk g₂ err₂ =>
              rw [hn] at h
              cases err₂ with
              | some e => exact absurd h (by simp)
              | none =>
                  dsimp only at h
                  have hk2 : Obj.keys g₂ = Obj.keys g₁ :=
                    optFieldStep_ok_keys g₁ m.negative_prompt_node
                      m.negative_prompt_field (.str neg) g₂ hn
                  cases hss : setSamplerSeeds S m.sampler_nodes g₂ with
                  | mk g₃ err₃ =>
                      rw [hss] at h
                      cases err₃ with
                      | some e => exact absurd h (by simp)
                      | none =>
                          dsimp only at h
                          obtain ⟨hs1, hs2, hs3⟩ := setSamplerSeeds_ok S
                            m.sampler_nodes g₂ g₃ hss
                          intro sid hmem hhk
                          have hk3 : Obj.hasKey g₂ sid = true := by
                            rw [Obj.hasKey_iff_mem_keys, hk2, hk1,
                              ← Obj.hasKey_iff_mem_keys]
                            exact hhk
                          have hseed3 : seedOfNode g₃ sid = some (.int S) :=
                            hs2 sid hmem hk3
                          unfold imageStep at h
                          by_cases himg : (optStrTruthy img &&
                              optStrTruthy m.load_image_node) = true
                          · rw [if_pos himg] at h
                            by_cases hlk : Obj.hasKey g₃
                                ((m.load_image_node).getD "") = true
                            · rw [if_pos hlk] at h
                              cases hset : setNodeInputField g₃
                                  ((m.load_image_node).getD "") "image"
                                  (.str (img.getD "")) with
                              | mk g₄ err₄ =>
                                  rw [hset] at h
                                  cases err₄ with
                                  | some e => exact absurd h (by simp)
                                  | none =>
                                      cases h
                                      rw [setNodeInputField_ok_seed_other g₃
                                        _ "image" _ gfin (by decide) hset sid]
                                      exact hseed3
                            · rw [if_neg hlk] at h
                              cases h
                              exact hseed3
                          · rw [if_neg himg] at h
                            cases h
                            exact hseed3

theorem analyze_sampler_hasKey (g : Obj) (mp : WorkflowNodeMapping)
    (h : analyzeWorkflowNodes g = .ok mp) :
    ∀ sid ∈ mp.sampler_nodes, Obj.hasKey g sid = true := by
  unfold analyzeWorkflowNodes at h
  intro sid hmem
  cases hfold : g.foldl analyzeNode ({}, []) with
  | mk m0 clips =>
      rw [hfold] at h
      dsimp only at h
      have hst := classifyClipNodes_sampler_stable clips m0 mp g h
      rw [hst] at hmem
      have := analyzeFold_sampler_hasKey g ({}, []) sid
        (by rw [hfold]; exact hmem)
      rcases this with h' | h'
      · simp at h'
      · exact h'

/-! ## Claim C1 — caller-supplied seed survives prepare and enforce -/

/-- C1 (counterexample): the caller-supplied seed `-1` is written into the
sampler by `prepare_workflow`, but `_enforce_deterministic_workflow` treats
`-1` as the randomize sentinel and replaces it (here with 42), so the
submitted sampler does not carry the caller's seed. -/
theorem claim1_counterexample :
    prepare_workflow
      ⟨[(1, { name := "wf", workflow_data := 0, node_mapping :=
          { sampler_node := some "3", sampler_nodes := ["3"] } })],
       [[("3", .obj [("class_type", .str "KSampler"),
                     ("inputs", .obj [("seed", .int 5)])])]]⟩
      1 "p" "n" (some (-1)) none 0 =
    (⟨[(1, { name := "wf", workflow_data := 0, node_mapping :=
          { sampler_node := some "3", sampler_nodes := ["3"] } })],
      [[("3", .obj [("class_type", .str "KSampler"),
                    ("inputs", .obj [("seed", .int 5)])])],
       [("3", .obj [("class_type", .str "KSampler"),
                    ("inputs", .obj [("seed", .int (-1))])])]]⟩,
     .ok (some 1, some (-1), some "n")) ∧
    enforceDeterministicWorkflow (fun _ => 42)
      [("3", .obj [("class_type", .str "KSampler"),
                   ("inputs", .obj [("seed", .int (-1))])])] =
    .ok ([("3", .obj [("class_type", .str "KSampler"),
                      ("inputs", .obj [("seed", .int 42)])])], 42) ∧
    (Value.int 42 ≠ Value.int (-1)) :=
  ⟨rfl, rfl, by simp⟩

/-- C1 (amended): for a caller seed `S ≠ -1` (`-1` is the enforcer's
randomize sentinel — see the counterexample), preparing a template with
its own analyzed role mapping and then enforcing the prepared graph yields
`usedSeed = S` and the literal value `S` in the `"seed"` input of every
sampler node of the role mapping's sampler list. -/
theorem claim1_prepare_enforce_seed (st : ParserState) (i : Nat)
    (info : WorkflowInfo) (posT negT : String) (S : Int)
    (img : Option String) (r : Int) (rand : Nat → Int) (st' : ParserState)
    (a : Nat) (us : Option Int) (ns : Option String) (g' : Obj) (rs : Int)
    (hS : S ≠ -1)
    (hinfo : lookupIdx st.workflows i = some info)
    (hmap : analyzeWorkflowNodes (st.heap.getD info.workflow_data []) =
      .ok info.node_mapping)
    (hprep : prepare_workflow st i posT negT (some S) img r =
      (st', .ok (some a, us, ns)))
    (henf : enforceDeterministicWorkflow rand (st'.heap.getD a []) =
      .ok (g', rs)) :
    us = some S ∧
    ∀ sid ∈ info.node_mapping.sampler_nodes,
      seedOfNode g' sid = some (.int S) := by
  unfold prepare_workflow at hprep
  rw [hinfo] at hprep
  dsimp only at hprep
  cases happ : applyPrepare info.node_mapping posT negT S img
      (st.heap.getD info.workflow_data []) with
  | mk gfin err =>
      rw [happ] at hprep
      cases err with
      | some e => exact absurd hprep (by simp)
      | none =>
          dsimp only at hprep
          have hst' : st' = ⟨st.workflows, st.heap ++ [gfin]⟩ :=
            (Prod.mk.injEq .. ▸ hprep).1.symm
          have hret := (Prod.mk.injEq .. ▸ hprep).2
          simp only [Except.ok.injEq, Prod.mk.injEq, Option.some.injEq]
            at hret
          obtain ⟨ha, hus, hns⟩ := hret
          refine ⟨hus.symm, ?_⟩
          have hgfin : st'.heap.getD a [] = gfin := by
            rw [hst']
            dsimp only
            rw [← ha]
            exact listGetD_append_self st.heap gfin []
          rw [hgfin] at henf
          intro sid hmem
          have hhk := analyze_sampler_hasKey _ info.node_mapping hmap sid hmem
          have hseed := applyPrepare_ok_sampler_seeds info.node_mapping posT
            negT S img _ gfin happ sid hmem hhk
          exact enforce_preserves_seed rand gfin g' rs S hS sid hseed henf

/-- Witness for C1 at a one-sampler template prepared with caller seed 7
and enforced afterwards. -/
theorem claim1_witness :
    (some 7 : Option Int) = some 7 ∧
    ∀ sid ∈ ({ sampler_node := some "3", sampler_nodes := ["3"] }
        : WorkflowNodeMapping).sampler_nodes,
      seedOfNode [("3", .obj [("class_type", .str "KSampler"),
        ("inputs", .obj [("seed", .int 7)])])] sid = some (.int 7) :=
  claim1_prepare_enforce_seed
    ⟨[(1, { name := "wf", workflow_data := 0, node_mapping :=
        { sampler_node := some "3", sampler_nodes := ["3"] } })],
     [[("3", .obj [("class_type", .str "KSampler"),
                   ("inputs", .obj [("seed", .int 5)])])]]⟩
    1
    { name := "wf", workflow_data := 0, node_mapping :=
        { sampler_node := some "3", sampler_nodes := ["3"] } }
    "p" "n" 7 none 0 (fun _ => 9)
    ⟨[(1, { name := "wf", workflow_data := 0, node_mapping :=
        { sampler_node := some "3", sampler_nodes := ["3"] } })],
     [[("3", .obj [("class_type", .str "KSampler"),
                   ("inputs", .obj [("seed", .int 5)])])],
      [("3", .obj [("class_type", .str "KSampler"),
                   ("inputs", .obj [("seed", .int 7)])])]]⟩
    1 (some 7) (some "n")
    [("3", .obj [("class_type", .str "KSampler"),
                 ("inputs", .obj [("seed", .int 7)])])]
    7 (by decide) rfl rfl rfl rfl

/-! ## Lemmas characterising the reported seed -/

theorem pyContains_sampler_eq (ct : Value) (b : Bool)
    (h : pyContains "Sampler" ct = .ok b) : b = classIsSampler ct := by
  cases ct with
  | str s =>
      simp only [pyContains, Except.ok.injEq] at h
      rw [← h, classIsSampler]
  | list xs =>
      simp only [pyContains, Except.ok.injEq] at h
      rw [← h, classIsSampler]
  | obj fs =>
      simp only [pyContains, Except.ok.injEq] at h
      rw [← h, classIsSampler]
  | null => exact absurd h (by simp [pyContains])
  | bool bb => exact absurd h (by simp [pyContains])
  | int n => exact absurd h (by simp [pyContains])

theorem processSeedKey_ok_full (rand : Nat → Int) (ct : Value) (ifs : Obj)
    (st : EnforceState) (key : String) (res : Value × EnforceState)
    (hk : Obj.hasKey ifs key = true)
    (h : processSeedKey rand ct (.obj ifs, st) key = .ok res) :
    ∃ ifs', res.1 = .obj ifs' ∧
      Obj.keys ifs' = Obj.keys ifs ∧
      (∀ k, k ≠ key → Obj.lookup ifs' k = Obj.lookup ifs k) ∧
      ∃ fv, Obj.lookup ifs' key = some fv ∧
        (res.2.mainSeed, res.2.ksamplerSeed) =
          (if classIsSampler ct then (st.mainSeed, some fv.toIntD)
           else if st.mainSeed.isNone then (some fv.toIntD, st.ksamplerSeed)
           else (st.mainSeed, st.ksamplerSeed)) := by
  unfold processSeedKey at h
  simp only [Value.subscriptStr] at h
  cases hcur : Obj.lookup ifs key with
  | none => rw [hcur] at h; exact absurd h (by simp [exceptBind_error])
  | some cur =>
      rw [hcur] at h
      simp only [exceptBind_ok] at h
      by_cases hrnd : (!cur.isNumber || cur.eqInt (-1)) = true
      · simp only [hrnd, if_true, Value.setItemStr, exceptBind_ok,
          exceptPure] at h
        simp only [Obj.lookup_set_self, exceptBind_ok] at h
        cases hc : pyContains "Sampler" ct with
        | error e => rw [hc] at h; exact absurd h (by simp [exceptBind_error])
        | ok b =>
            rw [hc] at h
            simp only [exceptBind_ok] at h
            have hb := pyContains_sampler_eq ct b hc
            subst hb
            refine ⟨Obj.set ifs key (.int (rand st.ctr)), ?_, ?_, ?_, ?_⟩
            · cases hcs : classIsSampler ct with
              | true =>
                  simp only [hcs, if_true, exceptPure] at h
                  cases h
                  rfl
              | false =>
                  by_cases hm : st.mainSeed.isNone <;>
                    simp only [hcs, hm, if_true, if_false,
                      Bool.false_eq_true, exceptPure] at h <;>
                    (cases h; rfl)
            · exact Obj.keys_set_of_hasKey ifs key _ hk
            · intro k hk2
              exact Obj.lookup_set_ne ifs key k _ hk2
            · refine ⟨.int (rand st.ctr), Obj.lookup_set_self ifs key _, ?_⟩
              cases hcs : classIsSampler ct with
              | true =>
                  simp only [hcs, if_true, exceptPure] at h
                  cases h
                  simp
              | false =>
                  by_cases hm : st.mainSeed.isNone
                  · simp only [hcs, hm, if_true, Bool.false_eq_true,
                      if_false, exceptPure] at h
                    cases h
                    simp [hm]
                  · simp only [hcs, hm, if_true, Bool.false_eq_true,
                      if_false, exceptPure] at h
                    cases h
                    simp [hm]
      · simp only [hrnd, Bool.false_eq_true, if_false, exceptPure,
          exceptBind_ok] at h
        simp only [Value.subscriptStr, hcur, exceptBind_ok] at h
        cases hc : pyContains "Sampler" ct with
        | error e => rw [hc] at h; exact absurd h (by simp [exceptBind_error])
        | ok b =>
            rw [hc] at h
            simp only [exceptBind_ok] at h
            have hb := pyContains_sampler_eq ct b hc
            subst hb
            refine ⟨ifs, ?_, rfl, fun k _ => rfl, ?_⟩
            · cases hcs : classIsSampler ct with
              | true =>
                  simp only [hcs, if_true, exceptPure] at h
                  cases h
                  rfl
              | false =>
                  by_cases hm : st.mainSeed.isNone <;>
                    simp only [hcs, hm, if_true, if_false,
                      Bool.false_eq_true, exceptPure] at h <;>
                    (cases h; rfl)
            · refine ⟨cur, hcur, ?_⟩
              cases hcs : classIsSampler ct with
              | true =>
                  simp only [hcs, if_true, exceptPure] at h
                  cases h
                  simp
              | false =>
                  by_cases hm : st.mainSeed.isNone
                  · simp only [hcs, hm, if_true, Bool.false_eq_true,
                      if_false, exceptPure] at h
                    cases h
                    simp [hm]
                  · simp only [hcs, hm, if_true, Bool.false_eq_true,
                      if_false, exceptPure] at h
                    cases h
                    simp [hm]

theorem foldProcess_scan (rand : Nat → Int) (ct : Value) (ks : List String) :
    ∀ (ifs : Obj) (st : EnforceState) (res : Value × EnforceState),
      ks.Nodup →
      (∀ k ∈ ks, Obj.hasKey ifs k = true) →
      List.foldlM (processSeedKey rand ct) (.obj ifs, st) ks = .ok res →
      ∃ ifs', res.1 = .obj ifs' ∧
        Obj.keys ifs' = Obj.keys ifs ∧
        (∀ k, k ∉ ks → Obj.lookup ifs' k = Obj.lookup ifs k) ∧
        (res.2.mainSeed, res.2.ksamplerSeed) =
          scanContribs (ks.map fun k =>
            (classIsSampler ct, ((Obj.lookup ifs' k).getD .null).toIntD))
            (st.mainSeed, st.ksamplerSeed) := by
  induction ks with
  | nil =>
      intro ifs st res _ _ h
      rw [List.foldlM_nil, exceptPure] at h
      cases h
      exact ⟨ifs, rfl, rfl, fun _ _ => rfl, rfl⟩
  | cons key rest ih =>
      intro ifs st res hnd hhk h
      rw [List.foldlM_cons] at h
      cases hstep : processSeedKey rand ct (.obj ifs, st) key with
      | error e => rw [hstep] at h; exact absurd h (by simp [exceptBind_error])
      | ok acc =>
          rw [hstep, exceptBind_ok] at h
          obtain ⟨a1, a2⟩ := acc
          obtain ⟨ifs₁, ha1, hkeys1, hout1, fv, hfv, hst1⟩ :=
            processSeedKey_ok_full rand ct ifs st key (a1, a2)
              (hhk key (List.mem_cons_self key rest)) hstep
          simp only at ha1 hst1
          subst ha1
          have hndr : rest.Nodup := (List.nodup_cons.1 hnd).2
          have hkey_not : key ∉ rest := (List.nodup_cons.1 hnd).1
          obtain ⟨ifs', hres, hkeys2, hout2, hscan⟩ := ih ifs₁ a2 res hndr
            (fun k hk => by
              rw [Obj.hasKey_iff_mem_keys, hkeys1, ← Obj.hasKey_iff_mem_keys]
              exact hhk k (List.mem_cons_of_mem _ hk)) h
          refine ⟨ifs', hres, by rw [hkeys2, hkeys1], ?_, ?_⟩
          · intro k hk
            rw [hout2 k (fun hh => hk (List.mem_cons_of_mem _ hh)),
              hout1 k (fun hh => hk (hh ▸ List.mem_cons_self key rest))]
          · rw [hscan]
            simp only [List.map_cons]
            have hfv' : Obj.lookup ifs' key = some fv := by
              rw [hout2 key hkey_not, hfv]
            rw [show scanContribs ((classIsSampler ct,
                ((Obj.lookup ifs' key).getD .null).toIntD) :: rest.map fun k =>
                  (classIsSampler ct, ((Obj.lookup ifs' k).getD .null).toIntD))
                (st.mainSeed, st.ksamplerSeed) =
              scanContribs (rest.map fun k =>
                  (classIsSampler ct, ((Obj.lookup ifs' k).getD .null).toIntD))
                (if classIsSampler ct then
                  (st.mainSeed, some ((Obj.lookup ifs' key).getD .null).toIntD)
                 else if st.mainSeed.isNone then
                  (some ((Obj.lookup ifs' key).getD .null).toIntD,
                    st.ksamplerSeed)
                 else (st.mainSeed, st.ksamplerSeed)) from ?_]
            · rw [hfv']
              simp only [Option.getD_some]
              rw [hst1]
            · simp only [scanContribs, List.foldl_cons]

theorem obj_filter_map_eq {α : Type} (p : String → Bool)
    (f : String → Value → α) :
    ∀ o : Obj, (Obj.keys o).Nodup →
      (o.filter fun kv => p kv.1).map (fun kv => f kv.1 kv.2) =
        ((Obj.keys o).filter p).map
          (fun k => f k ((Obj.lookup o k).getD .null)) := by
  intro o
  induction o with
  | nil => intro _; rfl
  | cons kv rest ih =>
      intro hnd
      obtain ⟨k, v⟩ := kv
      simp only [Obj.keys, List.map_cons, List.nodup_cons] at hnd
      obtain ⟨hk_not, hndr⟩ := hnd
      have hcongr : ((List.map Prod.fst rest).filter p).map
          (fun k' => f k' ((Obj.lookup ((k, v) :: rest) k').getD .null)) =
          ((List.map Prod.fst rest).filter p).map
            (fun k' => f k' ((Obj.lookup rest k').getD .null)) := by
        refine List.map_congr_left ?_
        intro k' hk'
        have hmem : k' ∈ List.map Prod.fst rest := (List.mem_filter.1 hk').1
        have hne : ¬k = k' := fun hh => hk_not (hh ▸ hmem)
        simp [Obj.lookup, hne]
      have ihr := ih (by simpa [Obj.keys] using hndr)
      simp only [Obj.keys] at ihr
      by_cases hp : p k = true
      · simp only [List.filter_cons, hp, if_true, List.map_cons, Obj.keys]
        rw [hcongr, ← ihr]
        refine congrArg₂ _ ?_ rfl
        simp [Obj.lookup]
      · simp only [List.filter_cons, hp, Bool.false_eq_true, if_false,
          Obj.keys, List.map_cons]
        rw [hcongr, ← ihr]

theorem enforceNode_scan (rand : Nat → Int) (node : Value)
    (st : EnforceState) (res : Value × EnforceState) (hwf : NodeWF node)
    (h : enforceNode rand node st = .ok res) :
    (res.2.mainSeed, res.2.ksamplerSeed) =
      scanContribs (nodeSeedContrib res.1)
        (st.mainSeed, st.ksamplerSeed) := by
  cases node with
  | obj fields =>
      unfold enforceNode at h
      dsimp only at h
      cases hlk : Obj.lookup fields "inputs" with
      | none =>
          rw [hlk] at h
          cases h
          simp [nodeSeedContrib, hlk, scanContribs]
      | some inputs =>
          rw [hlk] at h
          dsimp only at h
          cases hsk : seedKeysOf inputs with
          | error e => rw [hsk] at h; exact absurd h (by simp [exceptBind_error])
          | ok ks =>
              rw [hsk, exceptBind_ok] at h
              cases hfold : List.foldlM (processSeedKey rand
                  (Obj.getD fields "class_type" (.str ""))) (inputs, st) ks with
              | error e =>
                  rw [hfold] at h
                  exact absurd h (by simp [exceptBind_error])
              | ok acc =>
                  rw [hfold, exceptBind_ok] at h
                  obtain ⟨v1, st1⟩ := acc
                  simp only at h
                  cases hpin : pinControlAfterGenerate v1 with
                  | error e =>
                      rw [hpin] at h
                      exact absurd h (by simp [exceptBind_error])
                  | ok v2 =>
                      rw [hpin, exceptBind_ok] at h
                      cases h
                      have hct : Obj.getD (Obj.set fields "inputs" v2)
                          "class_type" (.str "") =
                          Obj.getD fields "class_type" (.str "") := by
                        simp [Obj.getD,
                          Obj.lookup_set_ne fields "inputs" "class_type" v2
                            (by decide)]
                      cases inputs with
                      | obj ifs =>
                          have hnd : (Obj.keys ifs).Nodup := by
                            simp only [NodeWF, hlk] at hwf
                            exact hwf
                          simp only [seedKeysOf, Except.ok.injEq] at hsk
                          have hknd : ks.Nodup := by
                            rw [← hsk]
                            exact List.Nodup.filter _ hnd
                          obtain ⟨ifs₁, hv1, hkeys1, hout1, hscan⟩ :=
                            foldProcess_scan rand _ ks ifs st (v1, st1) hknd
                              (fun k hk => by
                                rw [← hsk] at hk
                                exact (Obj.hasKey_iff_mem_keys ifs k).2
                                  (List.mem_filter.1 hk).1) hfold
                          simp only at hv1 hscan
                          subst hv1
                          have hfilter2 : ∀ w : Value,
                              pinControlAfterGenerate (.obj ifs₁) = .ok w →
                              nodeSeedContrib (.obj (Obj.set fields "inputs"
                                w)) = (ifs₁.filter fun kv =>
                                  seedNamed kv.1).map fun kv =>
                                  (classIsSampler (Obj.getD fields
                                    "class_type" (.str "")), kv.2.toIntD) := by
                            intro w hw
                            have hctw : ∀ u : Value,
                                Obj.getD (Obj.set fields "inputs" u)
                                  "class_type" (.str "") =
                                Obj.getD fields "class_type" (.str "") :=
                              fun u => by
                                simp [Obj.getD,
                                  Obj.lookup_set_ne fields "inputs"
                                    "class_type" u (by decide)]
                            rcases pin_ok_shape _ _ hw with hsh | ⟨i2, hi2, hsh⟩
                            · subst hsh
                              simp only [nodeSeedContrib,
                                Obj.lookup_set_self, hctw]
                            · cases hi2
                              subst hsh
                              simp only [nodeSeedContrib,
                                Obj.lookup_set_self, hctw]
                              rw [Obj.filter_set_key_false ifs₁
                                "control_after_generate" (.str "fixed") _
                                (fun v' => by simp [seedNamed_cag])]
                          rw [hfilter2 v2 hpin]
                          rw [obj_filter_map_eq seedNamed
                            (fun k v => (classIsSampler (Obj.getD fields
                              "class_type" (.str "")), v.toIntD)) ifs₁ (by
                            rw [hkeys1]; exact hnd)]
                          rw [hkeys1]
                          rw [show (Obj.keys ifs).filter seedNamed = ks
                            from hsk]
                          exact hscan
                      | str s =>
                          simp only [seedKeysOf, Except.ok.injEq] at hsk
                          subst hsk
                          rw [List.foldlM_nil, exceptPure] at hfold
                          cases hfold
                          rcases pin_ok_shape _ _ hpin with hsh | ⟨i2, hi2, _⟩
                          · subst hsh
                            simp [nodeSeedContrib, Obj.lookup_set_self,
                              scanContribs]
                          · exact absurd hi2 (by simp)
                      | list xs =>
                          cases ks with
                          | nil =>
                              rw [List.foldlM_nil, exceptPure] at hfold
                              cases hfold
                              rcases pin_ok_shape _ _ hpin with
                                hsh | ⟨i2, hi2, _⟩
                              · subst hsh
                                simp [nodeSeedContrib, Obj.lookup_set_self,
                                  scanContribs]
                              · exact absurd hi2 (by simp)
                          | cons k krest =>
                              rw [List.foldlM_cons] at hfold
                              have : processSeedKey rand
                                  (Obj.getD fields "class_type" (.str ""))
                                  (.list xs, st) k = .error .typeError := rfl
                              rw [this, exceptBind_error] at hfold
                              exact absurd hfold (by simp)
                      | null => exact absurd hsk (by simp [seedKeysOf])
                      | bool b => exact absurd hsk (by simp [seedKeysOf])
                      | int n => exact absurd hsk (by simp [seedKeysOf])
  | null => cases h; simp [nodeSeedContrib, scanContribs]
  | bool b => cases h; simp [nodeSeedContrib, scanContribs]
  | int n => cases h; simp [nodeSeedContrib, scanContribs]
  | str s => cases h; simp [nodeSeedContrib, scanContribs]
  | list xs => cases h; simp [nodeSeedContrib, scanContribs]

theorem enforceNodes_scan (rand : Nat → Int) :
    ∀ (g : Obj) (st : EnforceState) (res : Obj × EnforceState),
    (∀ kn ∈ g, NodeWF kn.2) →
    enforceNodes rand g st = .ok res →
    (res.2.mainSeed, res.2.ksamplerSeed) =
      res.1.foldl (fun p kn => scanContribs (nodeSeedContrib kn.2) p)
        (st.mainSeed, st.ksamplerSeed) := by
  intro g
  induction g with
  | nil =>
      intro st res hwf h
      cases h
      rfl
  | cons kn rest ih =>
      intro st res hwf h
      obtain ⟨k, node⟩ := kn
      unfold enforceNodes at h
      cases hn : enforceNode rand node st with
      | error e => rw [hn] at h; exact absurd h (by simp [exceptBind_error])
      | ok a =>
          rw [hn, exceptBind_ok] at h
          obtain ⟨node1, st1⟩ := a
          simp only at h
          cases hr : enforceNodes rand rest st1 with
          | error e =>
              rw [hr] at h
              exact absurd h (by simp [exceptBind_error])
          | ok b =>
              rw [hr, exceptBind_ok] at h
              obtain ⟨rest1, st2⟩ := b
              simp only at h
              cases h
              have h1 := enforceNode_scan rand node st (node1, st1)
                (hwf (k, node) (by simp)) hn
              have h2 := ih st1 (rest1, st2)
                (fun kn hk => hwf kn (by simp [hk])) hr
              simp only at h1 h2
              rw [List.foldl_cons]
              simp only
              rw [← h1]
              exact h2

/-- C5 (amended): for every well-formed graph, the seed reported by
`_enforce_deterministic_workflow` is `ksampler_seed or main_seed or 0`
over the enforced graph's seed-named fields: the LAST seed value found on
a node whose class type contains `"Sampler"` if that value is nonzero,
else the FIRST seed value found on a non-sampler node if nonzero, else
`0` — a zero seed on a sampler is reported as `0` even though a seed
field exists. -/
theorem claim5_reported_seed (rand : Nat → Int) (g g1 : Obj) (s : Int)
    (hwf : GraphWF g)
    (h : enforceDeterministicWorkflow rand g = .ok (g1, s)) :
    s = reportedSeedSpec g1 := by
  unfold enforceDeterministicWorkflow at h
  cases he : enforceNodes rand g ⟨0, none, none⟩ with
  | error e => rw [he] at h; exact absurd h (by simp [exceptBind_error])
  | ok a =>
      rw [he, exceptBind_ok] at h
      obtain ⟨nodes, st⟩ := a
      simp only [exceptPure, Except.ok.injEq, Prod.mk.injEq] at h
      obtain ⟨hg1, hs⟩ := h
      subst hg1
      subst hs
      have hscan := enforceNodes_scan rand g ⟨0, none, none⟩ (nodes, st)
        hwf he
      simp only at hscan
      unfold reportedSeedSpec
      rw [← hscan]

/-- C5 counterexample: a graph holding a sampler node with seed field `0`
makes enforce report `0`, refuting that `0` is reported only when no seed
field exists anywhere in the graph. -/
theorem claim5_counterexample :
    enforceDeterministicWorkflow (fun _ => 1)
      [("1", .obj [("class_type", .str "KSampler"),
                   ("inputs", .obj [("seed", .int 0)])])] =
      .ok ([("1", .obj [("class_type", .str "KSampler"),
                   ("inputs", .obj [("seed", .int 0)])])], 0) ∧
    hasSeedField
      [("1", .obj [("class_type", .str "KSampler"),
                   ("inputs", .obj [("seed", .int 0)])])] = true :=
  ⟨rfl, rfl⟩

theorem claim5_witness :
    GraphWF [("1", .obj [("class_type", .str "KSampler"),
               ("inputs", .obj [("seed", .int 5)])])] ∧
    (5 : Int) = reportedSeedSpec
      [("1", .obj [("class_type", .str "KSampler"),
                   ("inputs", .obj [("seed", .int 5)])])] := by
  have hwf : GraphWF [("1", .obj [("class_type", .str "KSampler"),
      ("inputs", .obj [("seed", .int 5)])])] := by
    intro kn hk
    simp only [List.mem_singleton] at hk
    subst hk
    show (Obj.keys [("seed", Value.int 5)]).Nodup
    decide
  exact ⟨hwf, claim5_reported_seed (fun _ => 7) _ _ 5 hwf rfl⟩

theorem bindExistsOk {α β : Type} (e : Except PyErr α)
    (f : α → Except PyErr β) (a : α) (ha : e = .ok a)
    (hf : ∃ b, f a = .ok b) : ∃ b, (e >>= f) = .ok b := by
  obtain ⟨b, hb⟩ := hf
  exact ⟨b, by rw [ha, exceptBind_ok]; exact hb⟩

theorem itePureOk {β : Type} (c1 c2 : Prop) [Decidable c1] [Decidable c2]
    (x y z : β) :
    ∃ b, (if c1 then (pure x : Except PyErr β)
          else if c2 then pure y else pure z) = .ok b := by
  by_cases h1 : c1
  · exact ⟨x, by rw [if_pos h1]; rfl⟩
  · by_cases h2 : c2
    · exact ⟨y, by rw [if_neg h1, if_pos h2]; rfl⟩
    · exact ⟨z, by rw [if_neg h1, if_neg h2]; rfl⟩

theorem graphTyped_lookup (g : Obj) (hg : graphTyped g = true)
    (k : String) (v : Value) (h : Obj.lookup g k = some v) :
    nodeTyped v = true := by
  have hmem := Obj.lookup_mem g k v h
  exact List.all_eq_true.1 hg (k, v) hmem

theorem traceLinkSource_typed_ok (g : Obj) (T : List String)
    (hg : graphTyped g = true) :
    ∀ (depth : Nat) (ref : Value),
      ∃ r, traceLinkSource g T depth ref = .ok r := by
  intro depth
  induction depth with
  | zero => intro ref; exact ⟨none, rfl⟩
  | succ d ih =>
      intro ref
      cases ref with
      | null => exact ⟨none, rfl⟩
      | bool b => exact ⟨none, rfl⟩
      | int n => exact ⟨none, rfl⟩
      | str s => exact ⟨none, rfl⟩
      | obj fs => exact ⟨none, rfl⟩
      | list xs =>
          cases xs with
          | nil => exact ⟨none, rfl⟩
          | cons x rest =>
              cases hlk : Obj.lookup g (pyStr x) with
              | none =>
                  refine ⟨none, ?_⟩
                  unfold traceLinkSource
                  dsimp only
                  rw [hlk]
              | some sourceNode =>
                  have hnt := graphTyped_lookup g hg _ _ hlk
                  cases sourceNode with
                  | null => simp [nodeTyped] at hnt
                  | bool b => simp [nodeTyped] at hnt
                  | int n => simp [nodeTyped] at hnt
                  | str s => simp [nodeTyped] at hnt
                  | list ys => simp [nodeTyped] at hnt
                  | obj fields =>
                      unfold traceLinkSource
                      dsimp only
                      rw [hlk]
                      dsimp only
                      by_cases h1 : (Obj.getD fields "class_type"
                          (.str "")).inStrList T = true
                      · rw [if_pos h1]
                        exact ⟨some (pyStr x), rfl⟩
                      · rw [if_neg h1]
                        by_cases h2 : (Obj.getD fields "class_type"
                            (.str "")).inStrList PASSTHROUGH_TYPES = true
                        · rw [if_pos h2]
                          simp only [nodeTyped, Bool.and_eq_true] at hnt
                          obtain ⟨hinp, _⟩ := hnt
                          cases hin : Obj.lookup fields "inputs" with
                          | none =>
                              rw [show Obj.getD fields "inputs" (.obj []) =
                                .obj [] from by simp [Obj.getD, hin]]
                              exact ⟨some (pyStr x), rfl⟩
                          | some iv =>
                              cases iv with
                              | null => rw [hin] at hinp; simp at hinp
                              | bool b => rw [hin] at hinp; simp at hinp
                              | int n => rw [hin] at hinp; simp at hinp
                              | str s => rw [hin] at hinp; simp at hinp
                              | list ys => rw [hin] at hinp; simp at hinp
                              | obj ifs =>
                                  rw [show Obj.getD fields "inputs"
                                    (.obj []) = .obj ifs from by
                                      simp [Obj.getD, hin]]
                                  dsimp only
                                  cases hfind : ifs.find?
                                      (fun kv => isLinkish kv.2) with
                                  | none =>
                                      exact ⟨some (pyStr x), rfl⟩
                                  | some kv =>
                                      obtain ⟨r, hr⟩ := ih kv.2
                                      exact ⟨r, hr⟩
                        · rw [if_neg h2]
                          exact ⟨some (pyStr x), rfl⟩

theorem classifyFromRef_typed_ok (g : Obj) (hg : graphTyped g = true)
    (clipIds : List String) (ref : Value) :
    ∃ r, classifyFromRef g clipIds ref = .ok r := by
  cases ref with
  | null => exact ⟨none, rfl⟩
  | bool b => exact ⟨none, rfl⟩
  | int n => exact ⟨none, rfl⟩
  | str s => exact ⟨none, rfl⟩
  | obj fs => exact ⟨none, rfl⟩
  | list xs =>
      cases xs with
      | nil => exact ⟨none, rfl⟩
      | cons x rest =>
          unfold classifyFromRef
          dsimp only
          obtain ⟨r, hr⟩ := traceLinkSource_typed_ok g
            CLIP_TEXT_ENCODE_TYPES hg 10 (.list (x :: rest))
          refine bindExistsOk _ _ r hr ?_
          cases r with
          | some tid =>
              dsimp only
              exact itePureOk _ _ _ _ _
          | none =>
              dsimp only
              by_cases hc : clipIds.contains (pyStr x) = true
              · exact ⟨some (pyStr x), by rw [if_pos hc]; rfl⟩
              · exact ⟨none, by rw [if_neg hc]; rfl⟩

theorem classifyByTitle_typed_ok (m : WorkflowNodeMapping) (nid : String)
    (nd : Value) (hty : nodeTyped nd = true) (hcl : clipShaped nd = true) :
    ∃ m2, classifyByTitle m nid nd = .ok m2 := by
  cases nd with
  | null => simp [clipShaped] at hcl
  | bool b => simp [clipShaped] at hcl
  | int n => simp [clipShaped] at hcl
  | str s => simp [clipShaped] at hcl
  | list xs => simp [clipShaped] at hcl
  | obj fields =>
      simp only [nodeTyped, Bool.and_eq_true] at hty
      obtain ⟨hinp, hrest⟩ := hty
      simp only [clipShaped] at hcl
      rw [hcl] at hrest
      simp only [Bool.not_true, Bool.false_or, Bool.and_eq_true] at hrest
      obtain ⟨hm, ht⟩ := hrest
      unfold classifyByTitle
      by_cases ha : assignedTo m nid = true
      · rw [if_pos ha]; exact ⟨m, rfl⟩
      · rw [if_neg ha]
        dsimp only
        refine bindExistsOk _ _ (Obj.getD fields "_meta" (.obj [])) rfl ?_
        dsimp only
        cases hml : Obj.lookup fields "_meta" with
        | none =>
            rw [show Obj.getD fields "_meta" (.obj []) = .obj [] from by
              simp [Obj.getD, hml]]
            refine bindExistsOk _ _ (.str "") rfl ?_
            dsimp only
            refine bindExistsOk _ _ (strToLower "") rfl ?_
            dsimp only
            exact itePureOk _ _ _ _ _
        | some mv =>
            rw [hml] at hm
            cases mv with
            | null => simp at hm
            | bool b => simp at hm
            | int n => simp at hm
            | str s => simp at hm
            | list ys => simp at hm
            | obj mfs =>
                rw [show Obj.getD fields "_meta" (.obj []) = .obj mfs from by
                  simp [Obj.getD, hml]]
                simp only at hm
                refine bindExistsOk _ _ (Obj.getD mfs "title" (.str ""))
                  rfl ?_
                dsimp only
                cases htl : Obj.lookup mfs "title" with
                | none =>
                    rw [show Obj.getD mfs "title" (.str "") = .str ""
                      from by simp [Obj.getD, htl]]
                    refine bindExistsOk _ _ (strToLower "") rfl ?_
                    dsimp only
                    exact itePureOk _ _ _ _ _
                | some tv =>
                    rw [htl] at hm
                    cases tv with
                    | null => simp at hm
                    | bool b => simp at hm
                    | int n => simp at hm
                    | list ys => simp at hm
                    | obj ofs => simp at hm
                    | str s =>
                        rw [show Obj.getD mfs "title" (.str "") = .str s
                          from by simp [Obj.getD, htl]]
                        refine bindExistsOk _ _ (strToLower s) rfl ?_
                        dsimp only
                        exact itePureOk _ _ _ _ _

theorem classifyByText_typed_ok (m : WorkflowNodeMapping) (nid : String)
    (nd : Value) (hty : nodeTyped nd = true) (hcl : clipShaped nd = true) :
    ∃ m2, classifyByText m nid nd = .ok m2 := by
  cases nd with
  | null => simp [clipShaped] at hcl
  | bool b => simp [clipShaped] at hcl
  | int n => simp [clipShaped] at hcl
  | str s => simp [clipShaped] at hcl
  | list xs => simp [clipShaped] at hcl
  | obj fields =>
      simp only [nodeTyped, Bool.and_eq_true] at hty
      obtain ⟨hinp, hrest⟩ := hty
      simp only [clipShaped] at hcl
      rw [hcl] at hrest
      simp only [Bool.not_true, Bool.false_or, Bool.and_eq_true] at hrest
      obtain ⟨hm, ht⟩ := hrest
      unfold classifyByText
      by_cases ha : assignedTo m nid = true
      · rw [if_pos ha]; exact ⟨m, rfl⟩
      · rw [if_neg ha]
        dsimp only
        refine bindExistsOk _ _ (Obj.getD fields "inputs" (.obj [])) rfl ?_
        dsimp only
        cases hil : Obj.lookup fields "inputs" with
        | none =>
            rw [show Obj.getD fields "inputs" (.obj []) = .obj [] from by
              simp [Obj.getD, hil]]
            refine bindExistsOk _ _ (.str "") rfl ?_
            dsimp only
            refine bindExistsOk _ _ (strToLower "") rfl ?_
            dsimp only
            exact itePureOk _ _ _ _ _
        | some iv =>
            rw [hil] at hinp ht
            cases iv with
            | null => simp at hinp
            | bool b => simp at hinp
            | int n => simp at hinp
            | str s => simp at hinp
            | list ys => simp at hinp
            | obj ifs =>
                rw [show Obj.getD fields "inputs" (.obj []) = .obj ifs
                  from by simp [Obj.getD, hil]]
                simp only at ht
                refine bindExistsOk _ _ (Obj.getD ifs "text" (.str ""))
                  rfl ?_
                dsimp only
                cases htx : Obj.lookup ifs "text" with
                | none =>
                    rw [show Obj.getD ifs "text" (.str "") = .str ""
                      from by simp [Obj.getD, htx]]
                    refine bindExistsOk _ _ (strToLower "") rfl ?_
                    dsimp only
                    exact itePureOk _ _ _ _ _
                | some tv =>
                    rw [htx] at ht
                    cases tv with
                    | null => simp at ht
                    | bool b => simp at ht
                    | int n => simp at ht
                    | list ys => simp at ht
                    | obj ofs => simp at ht
                    | str s =>
                        rw [show Obj.getD ifs "text" (.str "") = .str s
                          from by simp [Obj.getD, htx]]
                        refine bindExistsOk _ _ (strToLower s) rfl ?_
                        dsimp only
                        exact itePureOk _ _ _ _ _

theorem foldTitle_typed_ok (clips : List (String × Value))
    (h : ∀ kv ∈ clips, nodeTyped kv.2 = true ∧ clipShaped kv.2 = true) :
    ∀ m, ∃ m2, clips.foldlM
      (fun m kv => classifyByTitle m kv.1 kv.2) m = .ok m2 := by
  induction clips with
  | nil => intro m; exact ⟨m, rfl⟩
  | cons kv rest ih =>
      intro m
      rw [List.foldlM_cons]
      obtain ⟨hty, hcl⟩ := h kv (by simp)
      obtain ⟨m1, hm1⟩ := classifyByTitle_typed_ok m kv.1 kv.2 hty hcl
      refine bindExistsOk _ _ m1 hm1 ?_
      exact ih (fun kv hk => h kv (by simp [hk])) m1

theorem foldText_typed_ok (clips : List (String × Value))
    (h : ∀ kv ∈ clips, nodeTyped kv.2 = true ∧ clipShaped kv.2 = true) :
    ∀ m, ∃ m2, clips.foldlM
      (fun m kv => classifyByText m kv.1 kv.2) m = .ok m2 := by
  induction clips with
  | nil => intro m; exact ⟨m, rfl⟩
  | cons kv rest ih =>
      intro m
      rw [List.foldlM_cons]
      obtain ⟨hty, hcl⟩ := h kv (by simp)
      obtain ⟨m1, hm1⟩ := classifyByText_typed_ok m kv.1 kv.2 hty hcl
      refine bindExistsOk _ _ m1 hm1 ?_
      exact ih (fun kv hk => h kv (by simp [hk])) m1

theorem classifyTail_typed_ok (clips : List (String × Value))
    (hc : ∀ kv ∈ clips, nodeTyped kv.2 = true ∧ clipShaped kv.2 = true)
    (m1 : WorkflowNodeMapping) :
    ∃ m2, (if optStrTruthy m1.positive_prompt_node &&
          optStrTruthy m1.negative_prompt_node then
        (pure m1 : Except PyErr WorkflowNodeMapping)
      else do
        let ma ← clips.foldlM (fun m kv => classifyByTitle m kv.1 kv.2) m1
        let mb ← clips.foldlM (fun m kv => classifyByText m kv.1 kv.2) ma
        pure (clips.foldl (fun m kv => classifyByOrder m kv.1) mb)) =
      .ok m2 := by
  by_cases hcond : (optStrTruthy m1.positive_prompt_node &&
      optStrTruthy m1.negative_prompt_node) = true
  · exact ⟨m1, by rw [if_pos hcond]; rfl⟩
  · rw [if_neg hcond]
    obtain ⟨ma, hma⟩ := foldTitle_typed_ok clips hc m1
    refine bindExistsOk _ _ ma hma ?_
    dsimp only
    obtain ⟨mb, hmb⟩ := foldText_typed_ok clips hc ma
    refine bindExistsOk _ _ mb hmb ?_
    exact ⟨_, rfl⟩

theorem classifyClipNodes_typed_ok (g : Obj) (hg : graphTyped g = true)
    (clips : List (String × Value))
    (hc : ∀ kv ∈ clips, nodeTyped kv.2 = true ∧ clipShaped kv.2 = true)
    (m : WorkflowNodeMapping) :
    ∃ m2, classifyClipNodes clips m g = .ok m2 := by
  cases clips with
  | nil => exact ⟨m, rfl⟩
  | cons c0 rest =>
      cases rest with
      | nil =>
          obtain ⟨nid, nd⟩ := c0
          exact ⟨_, rfl⟩
      | cons c1 rest2 =>
          unfold classifyClipNodes
          dsimp only
          cases hsn : m.sampler_node with
          | none =>
              dsimp only
              rw [exceptPure, exceptBind_ok]
              exact classifyTail_typed_ok _ hc m
          | some sid =>
              dsimp only
              by_cases hk : (decide ¬sid = "" && Obj.hasKey g sid) = true
              · rw [if_pos hk]
                rw [Bool.and_eq_true] at hk
                have hk2 : (Obj.lookup g sid).isSome = true := hk.2
                rw [Option.isSome_iff_exists] at hk2
                obtain ⟨v, hv⟩ := hk2
                have hnt := graphTyped_lookup g hg _ _ hv
                cases v with
                | null => simp [nodeTyped] at hnt
                | bool b => simp [nodeTyped] at hnt
                | int n => simp [nodeTyped] at hnt
                | str s => simp [nodeTyped] at hnt
                | list ys => simp [nodeTyped] at hnt
                | obj fields =>
                    rw [show Obj.getD g sid .null = .obj fields from by
                      simp [Obj.getD, hv]]
                    refine bindExistsOk _ _
                      (Obj.getD fields "inputs" (.obj [])) rfl ?_
                    dsimp only
                    simp only [nodeTyped, Bool.and_eq_true] at hnt
                    obtain ⟨hinp, -⟩ := hnt
                    have hsifs : ∃ sifs, Obj.getD fields "inputs"
                        (.obj []) = .obj sifs := by
                      cases hil : Obj.lookup fields "inputs" with
                      | none => exact ⟨[], by simp [Obj.getD, hil]⟩
                      | some iv =>
                          rw [hil] at hinp
                          cases iv with
                          | null => simp at hinp
                          | bool b => simp at hinp
                          | int n => simp at hinp
                          | str s => simp at hinp
                          | list ys => simp at hinp
                          | obj sifs =>
                              exact ⟨sifs, by simp [Obj.getD, hil]⟩
                    obtain ⟨sifs, hsi⟩ := hsifs
                    rw [hsi]
                    refine bindExistsOk _ _
                      (Obj.getD sifs "positive" (.list [])) rfl ?_
                    dsimp only
                    refine bindExistsOk _ _
                      (Obj.getD sifs "negative" (.list [])) rfl ?_
                    dsimp only
                    obtain ⟨pa, hpa⟩ := classifyFromRef_typed_ok g hg
                      ((c0 :: c1 :: rest2).map Prod.fst)
                      (Obj.getD sifs "positive" (.list []))
                    refine bindExistsOk _ _ pa hpa ?_
                    dsimp only
                    obtain ⟨na, hna⟩ := classifyFromRef_typed_ok g hg
                      ((c0 :: c1 :: rest2).map Prod.fst)
                      (Obj.getD sifs "negative" (.list []))
                    refine bindExistsOk _ _ na hna ?_
                    dsimp only
                    refine bindExistsOk _ _ _ rfl ?_
                    dsimp only
                    exact classifyTail_typed_ok _ hc _
              · rw [if_neg hk]
                rw [exceptPure, exceptBind_ok]
                exact classifyTail_typed_ok _ hc m

theorem analyzeNode_snd (acc : WorkflowNodeMapping × List (String × Value))
    (entry : String × Value) :
    (analyzeNode acc entry).2 =
      if clipShaped entry.2 then acc.2 ++ [entry] else acc.2 := by
  obtain ⟨m, clips⟩ := acc
  obtain ⟨nid, nd⟩ := entry
  cases nd with
  | null => rfl
  | bool b => rfl
  | int n => rfl
  | str s => rfl
  | list xs => rfl
  | obj fields =>
      unfold analyzeNode clipShaped
      dsimp only
      by_cases hclip : (Obj.getD fields "class_type"
          (.str "")).inStrList CLIP_TEXT_ENCODE_TYPES = true
      · rw [if_pos hclip, if_pos hclip]
      · rw [if_neg hclip, if_neg hclip]
        split
        · rfl
        split
        · rfl
        split
        · rfl
        split
        · rfl
        · rfl

theorem analyzeFold_clips_mem (g : Obj) :
    ∀ (acc : WorkflowNodeMapping × List (String × Value))
      (kv : String × Value), kv ∈ (g.foldl analyzeNode acc).2 →
      kv ∈ acc.2 ∨ (kv ∈ g ∧ clipShaped kv.2 = true) := by
  induction g with
  | nil => intro acc kv h; exact Or.inl h
  | cons e rest ih =>
      intro acc kv h
      rw [List.foldl_cons] at h
      rcases ih (analyzeNode acc e) kv h with h1 | h2
      · rw [analyzeNode_snd] at h1
        by_cases hcs : clipShaped e.2 = true
        · rw [if_pos hcs] at h1
          rcases List.mem_append.1 h1 with h3 | h3
          · exact Or.inl h3
          · right
            rw [List.mem_singleton] at h3
            subst h3
            exact ⟨List.mem_cons_self _ _, hcs⟩
        · rw [if_neg hcs] at h1
          exact Or.inl h1
      · exact Or.inr ⟨List.mem_cons_of_mem _ h2.1, h2.2⟩

/-- C2 (amended): over every graph whose node values are dicts, whose
`inputs` values are dicts, and whose prompt-encode candidates carry a dict
`_meta` with a string `title` (when present) and a string `text` (when
present), the classifier `_analyze_workflow_nodes` raises nothing and
returns a role mapping.  Without these typing conditions the claim fails:
the title and content heuristics call `.get` on whatever `_meta` and
`inputs` hold, raising `AttributeError` on non-dict values. -/
theorem claim2_classify_total (g : Obj) (h : graphTyped g = true) :
    ∃ m, analyzeWorkflowNodes g = .ok m := by
  unfold analyzeWorkflowNodes
  cases hfold : g.foldl analyzeNode ({}, []) with
  | mk m0 clips0 =>
      dsimp only
      refine classifyClipNodes_typed_ok g h clips0 ?_ m0
      intro kv hkv
      have hmem := analyzeFold_clips_mem g ({}, []) kv
        (by rw [hfold]; exact hkv)
      rcases hmem with h1 | ⟨h2, h3⟩
      · simp at h1
      · exact ⟨List.all_eq_true.1 h kv h2, h3⟩

/-- C2 counterexample: a graph with two prompt-encode nodes, one of whose
`_meta` is the integer `5`, makes `_analyze_workflow_nodes` raise
`AttributeError` (`(5).get("title", "")` in workflow_parser.py:203): the
classifier does not tolerate arbitrary malformed node metadata. -/
theorem claim2_counterexample :
    analyzeWorkflowNodes
      [("1", .obj [("class_type", .str "CLIPTextEncode"),
                   ("_meta", .int 5)]),
       ("2", .obj [("class_type", .str "CLIPTextEncode")])] =
      .error .attributeError := by rfl

theorem claim2_witness :
    graphTyped
      [("1", .obj [("class_type", .str "CLIPTextEncode"),
                   ("_meta", .obj [("title", .str "Positive Prompt")]),
                   ("inputs", .obj [("text", .str "a cat")])]),
       ("2", .obj [("class_type", .str "CLIPTextEncode"),
                   ("_meta", .obj [("title", .str "Negative Prompt")]),
                   ("inputs", .obj [("text", .str "ugly")])])] = true ∧
    ∃ m, analyzeWorkflowNodes
      [("1", .obj [("class_type", .str "CLIPTextEncode"),
                   ("_meta", .obj [("title", .str "Positive Prompt")]),
                   ("inputs", .obj [("text", .str "a cat")])]),
       ("2", .obj [("class_type", .str "CLIPTextEncode"),
                   ("_meta", .obj [("title", .str "Negative Prompt")]),
                   ("inputs", .obj [("text", .str "ugly")])])] = .ok m :=
  ⟨rfl, claim2_classify_total _ rfl⟩
